import Mathlib

/-!
# PrimeLine-CRM: formal model of the reply-parsing / pricing pipeline

A shallow embedding, in Lean 4, of the price-update pipeline of the
PrimeLine-CRM repository: the catalog update and promotion helpers
(`database.py`), the volume-discount evaluator (`utils.py`), the LLM-output
validator (`gemini_client.py`), and the reply processor with its regex
fallback extractor (`email_handler.py`).

Modelling conventions:
* Python strings are lists of Unicode code points (`PyStr := List Nat`).
* Python floats are exact rationals (`ℚ`); the claims under study concern
  comparisons and simple arithmetic, not binary rounding.
* Python `datetime` values are records of calendar fields; comparison goes
  through a civil-calendar second count.
* Exceptions are `Option`/`Except`; every embedded function is total.
* `re` patterns that only ever get evaluated on concrete inputs are run by a
  small backtracking regex engine whose pattern terms transcribe the Python
  patterns literally; the few patterns that appear under universal
  quantifiers are hand-compiled into transparent scanners.
-/

/-- Python strings, modelled as lists of Unicode code points. -/
abbrev PyStr := List Nat

/-- Code points of a Lean string literal (used to write readable inputs). -/
def codes (s : String) : PyStr := s.data.map Char.toNat

/-- Python `str.isspace` on one code point (ASCII whitespace, the subset
exercised by this repository): space, tab, newline, vertical tab, form feed,
carriage return. -/
def isSpaceC (c : Nat) : Bool := c = 32 || c = 9 || c = 10 || c = 11 || c = 12 || c = 13

/-- ASCII decimal digit (the `\d` class over the ASCII plane). -/
def isDigitC (c : Nat) : Bool := 48 ≤ c && c ≤ 57

/-- ASCII uppercase letter. -/
def isUpperC (c : Nat) : Bool := 65 ≤ c && c ≤ 90

/-- ASCII lowercase letter. -/
def isLowerC (c : Nat) : Bool := 97 ≤ c && c ≤ 122

/-- ASCII letter (`str.isalpha` over the ASCII plane). -/
def isAlphaC (c : Nat) : Bool := isUpperC c || isLowerC c

/-- `str.lower` on one code point (ASCII case map). -/
def toLowerC (c : Nat) : Nat := if isUpperC c then c + 32 else c

/-- `str.upper` on one code point (ASCII case map). -/
def toUpperC (c : Nat) : Nat := if isLowerC c then c - 32 else c

/-- Python `str.lower`. -/
def lowerStr (s : PyStr) : PyStr := s.map toLowerC

/-- Python `str.strip()` (no argument): drop leading and trailing whitespace. -/
def pyStrip (s : PyStr) : PyStr :=
  ((s.dropWhile isSpaceC).reverse.dropWhile isSpaceC).reverse

/-- Fuel-driven worker for `str.split()`; fuel at least the length of the
string makes the zero-fuel branch unreachable. -/
def splitWsA : Nat → PyStr → List PyStr
  | _, [] => []
  | 0, _ :: _ => []
  | fuel + 1, c :: cs =>
    if isSpaceC c then splitWsA fuel cs
    else (c :: cs.takeWhile (fun d => !isSpaceC d)) ::
         splitWsA fuel (cs.dropWhile (fun d => !isSpaceC d))

/-- Python `str.split()` (no argument): maximal runs of non-whitespace. -/
def splitWs (s : PyStr) : List PyStr := splitWsA s.length s

/-- Python `' '.join(words)`: the pieces separated by single spaces. -/
def joinWords : List PyStr → PyStr
  | [] => []
  | [w] => w
  | w :: rest => w ++ 32 :: joinWords rest

/-- Helper for `str.title`: the boolean records whether the previous
character was alphabetic (i.e. cased, over the ASCII plane). -/
def titleAux (prevAlpha : Bool) : PyStr → PyStr
  | [] => []
  | c :: cs =>
    (if isAlphaC c then (if prevAlpha then toLowerC c else toUpperC c) else c)
      :: titleAux (isAlphaC c) cs

/-- Python `str.title` (ASCII model): first letter of each run of letters
uppercased, the rest lowercased. -/
def pyTitle (s : PyStr) : PyStr := titleAux false s

/-- Python `str.split(sep)` for a one-character separator: keeps empty
pieces, e.g. `"a,,b".split(',') = ["a", "", "b"]`. -/
def splitOnChar (sep : Nat) (s : PyStr) : List PyStr :=
  match s with
  | [] => [[]]
  | c :: cs =>
    let rest := splitOnChar sep cs
    if c = sep then [] :: rest
    else match rest with
      | [] => [[c]]
      | piece :: more => (c :: piece) :: more

/-- Python `str.isdigit` (ASCII model): nonempty and all digits. -/
def pyIsdigit (s : PyStr) : Bool := !s.isEmpty && s.all isDigitC

/-- Membership of a code point in a string (Python `c in s`). -/
def strContains (s : PyStr) (c : Nat) : Bool := s.any (fun d => d = c)

/-- Numeric value of a digit string (value of `int("…")` on all-digit text). -/
def natOfDigits (s : PyStr) : Nat := s.foldl (fun acc c => acc * 10 + (c - 48)) 0

/-- Decimal digits of a natural number (structural recursion on a fuel
bound, so that the kernel can evaluate it; the fuel `n + 1` always
suffices since each step divides by ten). -/
def natToDigitsAux : Nat → Nat → PyStr
  | 0, _ => []
  | fuel + 1, n =>
    if n < 10 then [48 + n]
    else natToDigitsAux fuel (n / 10) ++ [48 + n % 10]

/-- Decimal digits of a natural number, as code points (the text of
Python `str(n)`). -/
def natToDigits (n : Nat) : PyStr := natToDigitsAux (n + 1) n

/-- Value of Python `float("…")` on text of the shape `digits[.digits]`
(the only shapes produced by the regexes in this repository). -/
def floatOfParts (intPart fracPart : PyStr) : ℚ :=
  (natOfDigits intPart : ℚ) + (natOfDigits fracPart : ℚ) / (10 : ℚ) ^ fracPart.length

/-! ## Datetime model (`datetime` stdlib subset used by `database.py`) -/

/-- A Python `datetime.datetime` value (fields only; no tzinfo is used by
the repository). -/
structure PyDateTime where
  year : Nat
  month : Nat
  day : Nat
  hour : Nat
  minute : Nat
  second : Nat
deriving DecidableEq, Repr

/-- Gregorian leap year. -/
def isLeap (y : Nat) : Bool := y % 4 = 0 && (y % 100 ≠ 0 || y % 400 = 0)

/-- Days in a month of a given year. -/
def daysInMonth (y m : Nat) : Nat :=
  if m = 2 then (if isLeap y then 29 else 28)
  else if m = 4 || m = 6 || m = 9 || m = 11 then 30
  else 31

/-- Serial day number of a civil date (proleptic Gregorian; the standard
days-from-civil computation, zero at 1970-01-01). -/
def daysFromCivil (y : Int) (m d : Nat) : Int :=
  let y2 : Int := if m ≤ 2 then y - 1 else y
  let era : Int := Int.fdiv y2 400
  let yoe : Int := y2 - era * 400
  let mp : Nat := (m + 9) % 12
  let doy : Int := (153 * (mp : Int) + 2).fdiv 5 + (d : Int) - 1
  let doe : Int := yoe * 365 + yoe.fdiv 4 - yoe.fdiv 100 + doy
  era * 146097 + doe - 719468

/-- Seconds since the epoch of a `PyDateTime`; `datetime` comparison and
subtraction go through this count. -/
def toSec (t : PyDateTime) : Int :=
  86400 * daysFromCivil t.year t.month t.day
    + 3600 * t.hour + 60 * t.minute + t.second

/-- `(a - b).days` for two datetimes: Python `timedelta` normalises with
`days` equal to the floor of the total length in days. -/
def tdDays (a b : PyDateTime) : Int := Int.fdiv (toSec a - toSec b) 86400

/-- Read exactly `n` leading digits. -/
def parseDigits (s : PyStr) (n : Nat) : Option (Nat × PyStr) :=
  let pre := s.take n
  if pre.length = n && pre.all isDigitC then some (natOfDigits pre, s.drop n)
  else none

/-- Expect one specific code point. -/
def parseChar (c : Nat) (s : PyStr) : Option PyStr :=
  match s with
  | d :: rest => if d = c then some rest else none
  | [] => none

/-- The `HH[:MM[:SS]]` tail accepted by `datetime.fromisoformat`
(fractional seconds and offsets never occur in this repository's data). -/
def parseIsoTime (s : PyStr) : Option (Nat × Nat × Nat) := do
  let (hh, s) ← parseDigits s 2
  if s.isEmpty then
    if hh ≤ 23 then some (hh, 0, 0) else none
  else do
    let s ← parseChar 58 s
    let (mi, s) ← parseDigits s 2
    if s.isEmpty then
      if hh ≤ 23 && mi ≤ 59 then some (hh, mi, 0) else none
    else do
      let s ← parseChar 58 s
      let (ss, s) ← parseDigits s 2
      if s.isEmpty && hh ≤ 23 && mi ≤ 59 && ss ≤ 59 then some (hh, mi, ss) else none

/-- `datetime.fromisoformat` (the subset reaching this repository):
`YYYY-MM-DD`, optionally followed by a single separator character and a
time `HH[:MM[:SS]]`; field ranges validated, `ValueError` is `none`. -/
def fromisoformat (s : PyStr) : Option PyDateTime := do
  let (y, s) ← parseDigits s 4
  let s ← parseChar 45 s
  let (mo, s) ← parseDigits s 2
  let s ← parseChar 45 s
  let (d, s) ← parseDigits s 2
  if y < 1 || mo < 1 || mo > 12 || d < 1 || d > daysInMonth y mo then none
  else match s with
    | [] => some ⟨y, mo, d, 0, 0, 0⟩
    | _sep :: rest => do
        let (hh, mi, ss) ← parseIsoTime rest
        some ⟨y, mo, d, hh, mi, ss⟩

/-- Truthiness of an optional string (`if s:` in Python: `None` and the
empty string are falsy). -/
def truthyS : Option PyStr → Bool
  | some w => !w.isEmpty
  | none => false

/-- Truthiness of an optional integer (`if i:` in Python: `None` and `0`
are falsy). -/
def truthyI : Option Int → Bool
  | some i => i != 0
  | none => false

/-! ## `database.py`: product rows and `Database` methods -/

namespace DB

/-- A row of the `products` table (the columns the pipeline reads or
writes). -/
structure Row where
  name : PyStr
  width : Option PyStr
  cost_price : ℚ
  standard_price : ℚ
  discount_percentage : Option ℚ
  min_qty_discount : Option Int
  promotion_name : Option PyStr
  promotion_start_date : Option PyStr
  promotion_end_date : Option PyStr
  volume_discounts : Option PyStr
  supplier_id : Option Int
  updated_at : Nat
deriving DecidableEq, Repr

/-- The products table. -/
abbrev Db := List Row

/-- `Database.get_products`: all rows (the supplier join adds a column the
pipeline never reads). -/
def get_products (db : Db) : List Row := db

/-- One matched row under the discount-aware `UPDATE` branch of
`update_product_price` (`database.py` lines 288–304): sets
`standard_price`, `cost_price` (via the `if discount_percentage` truthiness
test), the four promotion columns, `updated_at`, and `supplier_id` only
when that argument is truthy. -/
def rowUpdateDiscount (new_price d : ℚ) (min_qty : Option Int)
    (promotion_name volume_discounts : Option PyStr) (supplier_id : Option Int)
    (now : Nat) (r : Row) : Row :=
  { r with
    standard_price := new_price
    cost_price := if d ≠ 0 then (7 : ℚ)/10 * new_price else new_price
    discount_percentage := some d
    min_qty_discount := min_qty
    promotion_name := promotion_name
    volume_discounts := volume_discounts
    supplier_id := if truthyI supplier_id then supplier_id else r.supplier_id
    updated_at := now }

/-- One matched row under the simple `UPDATE` branch of
`update_product_price` (`database.py` lines 306–317): sets only
`standard_price`, `cost_price`, `updated_at` (and `supplier_id` when
truthy). -/
def rowUpdateSimple (new_price : ℚ) (supplier_id : Option Int) (now : Nat)
    (r : Row) : Row :=
  { r with
    standard_price := new_price
    cost_price := new_price
    supplier_id := if truthyI supplier_id then supplier_id else r.supplier_id
    updated_at := now }

/-- `Database.update_product_price` (`database.py` lines 267–328).
Returns the Python return value and the table afterwards.  `now` stands
for `CURRENT_TIMESTAMP`.  With a truthy `width` the row is addressed by
`(name, width)`, otherwise by `name` alone; and with a falsy `width` the
update itself is the literal `pass` of line 320: the call commits nothing
and returns `True`. -/
def update_product_price (db : Db) (name : PyStr) (new_price : ℚ)
    (width : Option PyStr) (discount_percentage : Option ℚ)
    (min_qty : Option Int) (promotion_name : Option PyStr)
    (volume_discounts : Option PyStr) (supplier_id : Option Int)
    (now : Nat) : Bool × Db :=
  if truthyS width then
    let w := width.getD []
    if db.any (fun r => r.name = name && r.width = some w) then
      match discount_percentage with
      | some d =>
        (true, db.map (fun r =>
          if r.name = name && r.width = some w then
            rowUpdateDiscount new_price d min_qty promotion_name
              volume_discounts supplier_id now r
          else r))
      | none =>
        (true, db.map (fun r =>
          if r.name = name && r.width = some w then
            rowUpdateSimple new_price supplier_id now r
          else r))
    else (false, db)
  else
    if db.any (fun r => r.name = name) then (true, db)
    else (false, db)

/-- The date-token preprocessing of `is_promotion_active` /
`get_promotion_days_remaining`: `s.split()[0] if ' ' in s else s`. -/
def dateTok (s : PyStr) : PyStr :=
  if strContains s 32 then (splitWs s).headD [] else s

/-- `Database.is_promotion_active` (`database.py` lines 446–465); `now`
stands for `datetime.now()`. -/
def is_promotion_active (start_s end_s : PyStr) (now : PyDateTime) : Bool :=
  if start_s.isEmpty || end_s.isEmpty then false
  else
    match fromisoformat (dateTok start_s), fromisoformat (dateTok end_s) with
    | some st, some en =>
        let en' : PyDateTime := { en with hour := 23, minute := 59, second := 59 }
        decide (toSec st ≤ toSec now) && decide (toSec now ≤ toSec en')
    | _, _ => false

/-- `Database.get_promotion_days_remaining` (`database.py` lines 467–480);
`now` stands for `datetime.now()`. -/
def get_promotion_days_remaining (end_s : PyStr) (now : PyDateTime) : Int :=
  if end_s.isEmpty then 0
  else
    match fromisoformat (dateTok end_s) with
    | some en => max 0 (tdDays en now)
    | none => 0

end DB

/-! ## `utils.py`: `parse_volume_discounts`

The three `re.search` calls are hand-compiled into scanners.  Each scanner
tries every start position from the left (the `re.search` strategy); at a
given position the greedy `\d+` needs no backtracking because every
continuation of these patterns starts with a non-digit, so shortening a
digit run can never rescue a failed match. -/

/-- Does `\s*%` match at the front of `l`? -/
def tailPct (l : PyStr) : Bool :=
  match l.dropWhile isSpaceC with
  | d :: _ => d = 37
  | [] => false

/-- Attempt of `(\d+(?:\.\d+)?)\s*%` anchored at the front of `l`,
returning `float(group(1))`. -/
def pctAt (l : PyStr) : Option ℚ :=
  let D := l.takeWhile isDigitC
  if D.isEmpty then none
  else
    let rest := l.dropWhile isDigitC
    let withFrac : Option ℚ :=
      match rest with
      | d :: r =>
        if d = 46 then
          let F := r.takeWhile isDigitC
          if F.isEmpty then none
          else if tailPct (r.dropWhile isDigitC) then some (floatOfParts D F)
          else none
        else none
      | [] => none
    match withFrac with
    | some v => some v
    | none => if tailPct rest then some (floatOfParts D []) else none

/-- `re.search(r'(\d+(?:\.\d+)?)\s*%', l)`, as `float(group(1))`. -/
def searchPct : PyStr → Option ℚ
  | [] => none
  | c :: cs =>
    match pctAt (c :: cs) with
    | some v => some v
    | none => searchPct cs

/-- Attempt of `(\d+)\s*\+` anchored at the front of `l`, as `int(group(1))`. -/
def plusAt (l : PyStr) : Option Nat :=
  let D := l.takeWhile isDigitC
  if D.isEmpty then none
  else
    match (l.dropWhile isDigitC).dropWhile isSpaceC with
    | d :: _ => if d = 43 then some (natOfDigits D) else none
    | [] => none

/-- `re.search(r'(\d+)\s*\+', l)`, as `int(group(1))`. -/
def searchPlus : PyStr → Option Nat
  | [] => none
  | c :: cs =>
    match plusAt (c :: cs) with
    | some v => some v
    | none => searchPlus cs

/-- Attempt of `(\d+)\s*-\s*(\d+)` anchored at the front of `l`, as
`(int(group(1)), int(group(2)))`. -/
def rangeAt (l : PyStr) : Option (Nat × Nat) :=
  let D1 := l.takeWhile isDigitC
  if D1.isEmpty then none
  else
    match (l.dropWhile isDigitC).dropWhile isSpaceC with
    | d :: r =>
      if d = 45 then
        let r2 := r.dropWhile isSpaceC
        let D2 := r2.takeWhile isDigitC
        if D2.isEmpty then none else some (natOfDigits D1, natOfDigits D2)
      else none
    | [] => none

/-- `re.search(r'(\d+)\s*-\s*(\d+)', l)`. -/
def searchRange : PyStr → Option (Nat × Nat)
  | [] => none
  | c :: cs =>
    match rangeAt (c :: cs) with
    | some v => some v
    | none => searchRange cs

/-- The per-tier body of the loop of `parse_volume_discounts`
(`utils.py` lines 75–101). -/
def tierStep (quantity : ℚ) (best : ℚ) (tier0 : PyStr) : ℚ :=
  let tier := lowerStr (pyStrip tier0)
  if tier.isEmpty then best
  else
    match searchPct tier with
    | none => best
    | some pct =>
      if strContains tier 43 then
        match searchPlus tier with
        | some min_qty =>
            if (min_qty : ℚ) ≤ quantity then max best pct else best
        | none => best
      else if strContains tier 45 then
        match searchRange tier with
        | some (min_qty, max_qty) =>
            if (min_qty : ℚ) ≤ quantity && quantity ≤ (max_qty : ℚ)
            then max best pct else best
        | none => best
      else best

/-- `utils.parse_volume_discounts(discount_str, quantity)`
(`utils.py` lines 62–106): split on commas, per tier find a percentage,
then check a `+` tier or a range tier against the quantity, keeping the
maximum; falsy text or quantity, or any parse failure, yields `0.0`. -/
def parse_volume_discounts (discount_str : PyStr) (quantity : ℚ) : ℚ :=
  if discount_str.isEmpty || quantity = 0 then 0
  else (splitOnChar 44 discount_str).foldl (tierStep quantity) 0

/-! ### Claim-side model of the volume-discount tier grammar (spec §4.2) -/

/-- A volume-discount tier as the spec describes it: a bounded range
`<min>-<max>` (inclusive) or an unbounded `<min>+`, each with an integer
percentage. -/
inductive Tier where
  | rng (lo hi pct : Nat)
  | plus (lo pct : Nat)
deriving DecidableEq, Repr

/-- Whether a tier's range contains the quantity (inclusive bounds, `+`
unbounded above). -/
def tierMatches (q : ℚ) : Tier → Bool
  | .rng lo hi _ => decide ((lo : ℚ) ≤ q) && decide (q ≤ (hi : ℚ))
  | .plus lo _ => decide ((lo : ℚ) ≤ q)

/-- A tier's percentage. -/
def tierPct : Tier → Nat
  | .rng _ _ p => p
  | .plus _ p => p

/-- One spec-side fold step: keep the maximum over matching tiers. -/
def specTierStep (q : ℚ) (b : ℚ) (t : Tier) : ℚ :=
  if tierMatches q t then max b (tierPct t : ℚ) else b

/-- The spec's answer: the maximum percentage over all tiers containing
the quantity, `0.0` when none does. -/
def specBestDiscount (ts : List Tier) (q : ℚ) : ℚ :=
  ts.foldl (specTierStep q) 0

/-- Canonical text of one tier, e.g. `500-999 sqft: 5% off` / `1500+ sqft: 10% off`. -/
def renderTier : Tier → PyStr
  | .rng lo hi pct =>
      natToDigits lo ++ [45] ++ natToDigits hi ++ codes " sqft: "
        ++ natToDigits pct ++ codes "% off"
  | .plus lo pct =>
      natToDigits lo ++ codes "+ sqft: " ++ natToDigits pct ++ codes "% off"

/-- Canonical comma-separated tier text. -/
def renderTiers : List Tier → PyStr
  | [] => []
  | [t] => renderTier t
  | t :: rest => renderTier t ++ 44 :: 32 :: renderTiers rest

/-! ## `email_handler.py`: normalizers and the price bound -/

namespace EH

/-- `EmailHandler._is_valid_price` (`email_handler.py` lines 29–32):
`0.01 <= price <= 1000.0`. -/
def _is_valid_price (price : ℚ) : Bool :=
  decide ((1 : ℚ)/100 ≤ price) && decide (price ≤ 1000)

/-- `EmailHandler._normalize_product_name` (`email_handler.py` lines
34–37): `' '.join(name.split())` then `.title()`. -/
def _normalize_product_name (name : PyStr) : PyStr :=
  pyTitle (joinWords (splitWs name))

/-- The token matched by `re.search(r'(\d+(?:\.\d+)?)', l)` anchored at a
digit: the maximal digit run, extended by `.digits` when present. -/
def grabNum (l : PyStr) : PyStr :=
  let D := l.takeWhile isDigitC
  match l.dropWhile isDigitC with
  | d :: r =>
    if d = 46 then
      let F := r.takeWhile isDigitC
      if F.isEmpty then D else D ++ 46 :: F
    else D
  | [] => D

/-- `re.search(r'(\d+(?:\.\d+)?)', l)`: the first numeric token. -/
def findNum : PyStr → Option PyStr
  | [] => none
  | c :: cs => if isDigitC c then some (grabNum (c :: cs)) else findNum cs

/-- `EmailHandler._normalize_width` (`email_handler.py` lines 39–50):
falsy input gives `None`; otherwise the first numeric token of the
stripped text formatted as `<number>"`, or `None` when there is none. -/
def _normalize_width (width : PyStr) : Option PyStr :=
  if width.isEmpty then none
  else
    match findNum (pyStrip width) with
    | some tok => some (tok ++ [34])
    | none => none

end EH

/-! ## A backtracking regex engine

Enough of Python `re` to run the patterns of `email_handler.py` on concrete
email bodies: ordered alternation, greedy and lazy repetition, optional
parts, numbered capture groups, `re.search` (leftmost match wins) and
`re.finditer` (successive non-overlapping leftmost matches).  `IGNORECASE`
is compiled into the character predicates.  Fuel bounds star unrolling;
every starred subpattern below consumes at least one character per
iteration, so fuel `length + 1` is never exhausted. -/

inductive RE where
  | eps
  | cls (p : Nat → Bool)
  | cat (a b : RE)
  | alt (a b : RE)
  | star (lazy : Bool) (r : RE)
  | opt (r : RE)
  | grp (i : Nat) (r : RE)

/-- Capture list: `(group index, start, stop)`, most recent first. -/
abbrev Caps := List (Nat × Nat × Nat)

/-- Latest recorded span of a group. -/
def getCap (i : Nat) (g : Caps) : Option (Nat × Nat) :=
  (g.find? (fun x => x.1 = i)).map (fun x => x.2)

/-- One fuel level of the backtracking matcher, by structural recursion
over the pattern; `next` is the whole matcher at the next smaller fuel
level (`none` at fuel zero, where star unrolling stops).  Preference order
follows Python: alternation left first, greedy stars longest first, lazy
stars shortest first; a group records its span when its body succeeds and
older records are shadowed. -/
def reMA (inp : List Nat)
    (next : Option (RE → Nat → Caps → (Nat → Caps → Option (Nat × Caps)) →
      Option (Nat × Caps))) :
    RE → Nat → Caps → (Nat → Caps → Option (Nat × Caps)) → Option (Nat × Caps)
  | .eps, pos, g, k => k pos g
  | .cls p, pos, g, k =>
    match inp.get? pos with
    | some c => if p c then k (pos + 1) g else none
    | none => none
  | .cat a b, pos, g, k =>
    reMA inp next a pos g (fun pos2 g2 => reMA inp next b pos2 g2 k)
  | .alt a b, pos, g, k =>
    match reMA inp next a pos g k with
    | some res => some res
    | none => reMA inp next b pos g k
  | .star lz r, pos, g, k =>
    match next with
    | none => k pos g
    | some dn =>
      if lz then
        match k pos g with
        | some res => some res
        | none => dn r pos g (fun pos2 g2 => dn (.star lz r) pos2 g2 k)
      else
        match dn r pos g (fun pos2 g2 => dn (.star lz r) pos2 g2 k) with
        | some res => some res
        | none => k pos g
  | .opt r, pos, g, k =>
    match reMA inp next r pos g k with
    | some res => some res
    | none => k pos g
  | .grp i r, pos, g, k =>
    reMA inp next r pos g (fun pos2 g2 => k pos2 ((i, pos, pos2) :: g2))

/-- The fuel tower of the matcher: level `fuel + 1` unrolls stars through
level `fuel`. -/
def reMB (inp : List Nat) :
    Nat → RE → Nat → Caps → (Nat → Caps → Option (Nat × Caps)) →
      Option (Nat × Caps)
  | 0 => reMA inp none
  | fuel + 1 => reMA inp (some (reMB inp fuel))

/-- The backtracking matcher in continuation style. -/
def reM (inp : List Nat) (fuel : Nat) (re : RE) (pos : Nat) (g : Caps)
    (k : Nat → Caps → Option (Nat × Caps)) : Option (Nat × Caps) :=
  reMB inp fuel re pos g k

/-- A match: overall span and captures. -/
structure RMatch where
  start : Nat
  stop : Nat
  caps : Caps

/-- Substring `[s, e)` of the subject. -/
def strSlice (inp : PyStr) (s e : Nat) : PyStr := (inp.drop s).take (e - s)

/-- `m.group(i)` (None when the group did not participate). -/
def mGroup (inp : PyStr) (m : RMatch) (i : Nat) : Option PyStr :=
  (getCap i m.caps).map (fun p => strSlice inp p.1 p.2)

/-- Fuel-driven worker for `re.search`: try the pattern anchored at each
position from `start` upward; first success wins.  Fuel
`inp.length + 1 - start` covers every position, so the zero-fuel branch
only fires where the original recursion has already stopped. -/
def reSearchAux (inp : PyStr) (re : RE) : Nat → Nat → Option RMatch
  | _, 0 => none
  | start, fuel + 1 =>
    if start ≤ inp.length then
      match reM inp (inp.length + 1) re start [] (fun pos g => some (pos, g)) with
      | some (stop, g) => some ⟨start, stop, g⟩
      | none =>
        if start = inp.length then none
        else reSearchAux inp re (start + 1) fuel
    else none

/-- Try the pattern anchored at each position from `start` upward; first
success wins (`re.search` semantics). -/
def reSearchFrom (inp : PyStr) (re : RE) (start : Nat) : Option RMatch :=
  reSearchAux inp re start (inp.length + 1 - start)

/-- `re.search`. -/
def reSearch (inp : PyStr) (re : RE) : Option RMatch := reSearchFrom inp re 0

/-- Successive leftmost matches: after a match, resume at its end (one
further when the match was empty).  The fuel bound `length + 1` covers
every possible number of matches, since each round strictly advances the
start position. -/
def reFindIterAux (inp : PyStr) (re : RE) : Nat → Nat → List RMatch
  | _, 0 => []
  | start, fuel + 1 =>
    match reSearchFrom inp re start with
    | some m =>
      m :: reFindIterAux inp re (if m.start < m.stop then m.stop else m.stop + 1) fuel
    | none => []

/-- `re.finditer`. -/
def reFinditer (inp : PyStr) (re : RE) : List RMatch :=
  reFindIterAux inp re 0 (inp.length + 1)

/-! ### Pattern-building helpers -/

/-- Literal code point. -/
def rChar (c : Nat) : RE := .cls (fun d => d = c)

/-- Literal code point under `IGNORECASE` (ASCII case fold). -/
def rCharCI (c : Nat) : RE := .cls (fun d => toLowerC d = toLowerC c)

/-- Case-insensitive literal word. -/
def rStrCI (s : String) : RE :=
  (codes s).foldr (fun c acc => .cat (rCharCI c) acc) .eps

/-- Ordered alternation of a list (empty list never matches). -/
def rAlts : List RE → RE
  | [] => .cls (fun _ => false)
  | [r] => r
  | r :: rs => .alt r (rAlts rs)

/-- `r+` (greedy). -/
def rPlus (r : RE) : RE := .cat r (.star false r)

/-- `r+?` (lazy). -/
def rPlusLazy (r : RE) : RE := .cat r (.star true r)

/-- `\d`. -/
def clsD : RE := .cls isDigitC

/-- `\s`. -/
def clsS : RE := .cls isSpaceC

/-- `[A-Za-z\s]`. -/
def clsNameChar : RE := .cls (fun c => isAlphaC c || isSpaceC c)

/-- Concatenation of a pattern list. -/
def rSeq (rs : List RE) : RE := rs.foldr .cat .eps

namespace EH

/-- The width-unit alternation of the fallback patterns, in source order:
inch, in, escaped double quote, two apostrophes, double quote. -/
def inchAlt : RE :=
  rAlts [rStrCI "inch", rStrCI "in", rChar 34, .cat (rChar 39) (rChar 39), rChar 34]

/-- A price token: digits, optional dot, digits. -/
def priceNum : RE := rSeq [rPlus clsD, .opt (rChar 46), .star false clsD]

/-- A number with optional fraction. -/
def numFrac : RE := .cat (rPlus clsD) (.opt (.cat (rChar 46) (rPlus clsD)))

/-- The optional per-square-foot unit suffix of several fallback patterns. -/
def sqftUnit : RE :=
  .opt (rAlts [.cat (rChar 47) (rStrCI "sqft"),
    rSeq [rStrCI "per", rPlus clsS, rStrCI "sq", .opt (rChar 46),
          .star false clsS, rStrCI "ft", .opt (rChar 46)]])

/-- Fallback pattern 1 (`email_handler.py` line 354):
name, width, unit, now/costs/is/will-be, price. -/
def pat1 : RE := rSeq [
  .grp 1 (rPlusLazy clsNameChar), rPlus clsS, .grp 2 (rPlus clsD),
  .star false clsS, inchAlt, rPlus clsS,
  .opt (.cat (rStrCI "now") (rPlus clsS)),
  rAlts [.cat (rStrCI "cost") (.opt (rCharCI 115)), rStrCI "is",
         rSeq [rStrCI "will", rPlus clsS, rStrCI "be"]],
  .star false clsS, .opt (rChar 36), .grp 3 priceNum]

/-- Fallback pattern 2 (line 355): updated price of width of name to price. -/
def pat2 : RE := rSeq [
  .opt (rSeq [rStrCI "update", .opt (rCharCI 100), rPlus clsS]),
  .opt (.cat (rStrCI "the") (rPlus clsS)),
  rStrCI "price", rPlus clsS,
  .opt (.cat (rStrCI "of") (rPlus clsS)),
  .grp 1 (rPlus clsD), .star false clsS, inchAlt, rPlus clsS,
  .opt (.cat (rStrCI "width") (rPlus clsS)),
  .opt (.cat (rStrCI "of") (rPlus clsS)),
  .grp 2 (rPlusLazy clsNameChar), rPlus clsS,
  .opt (rAlts [rStrCI "to", rStrCI "is", rStrCI "now", rChar 58]),
  .star false clsS, .opt (rChar 36), .grp 3 priceNum]

/-- Fallback pattern 3 (line 356): name, width, unit, is/now/will-be, price,
optional unit suffix. -/
def pat3 : RE := rSeq [
  .grp 1 (rPlusLazy clsNameChar), rPlus clsS, .grp 2 (rPlus clsD),
  .star false clsS, inchAlt, rPlus clsS,
  .opt (.cat (rStrCI "is") (rPlus clsS)),
  .opt (.cat (rStrCI "now") (rPlus clsS)),
  .opt (rSeq [rStrCI "will", rPlus clsS, rStrCI "be", rPlus clsS]),
  .opt (rChar 36), .grp 3 priceNum, .star false clsS, sqftUnit]

/-- Fallback pattern 4 (line 357): name, width, unit, colon, price. -/
def pat4 : RE := rSeq [
  .grp 1 (rPlusLazy clsNameChar), rPlus clsS, .grp 2 (rPlus clsD),
  .star false clsS, inchAlt, .star false clsS, rChar 58, .star false clsS,
  .opt (rChar 36), .grp 3 priceNum, .star false clsS, sqftUnit]

/-- Fallback pattern 5 (line 358): width first, then name, then price. -/
def pat5 : RE := rSeq [
  .grp 1 (rPlus clsD), .star false clsS, inchAlt, rPlus clsS,
  .grp 2 (rPlusLazy clsNameChar), rPlus clsS,
  .opt (.cat (rStrCI "is") (rPlus clsS)),
  .opt (.cat (rStrCI "now") (rPlus clsS)),
  .opt (rSeq [rStrCI "will", rPlus clsS, rStrCI "be", rPlus clsS]),
  .opt (rChar 36), .grp 3 priceNum, .star false clsS, sqftUnit]

/-- Fallback pattern 6 (line 359): name, separator, price (two groups). -/
def pat6 : RE := rSeq [
  .grp 1 (rPlusLazy clsNameChar), .star false clsS,
  .cls (fun c => c = 58 || c = 124 || c = 45), .star false clsS,
  .opt (rChar 36), .grp 2 priceNum, .star false clsS, sqftUnit]

/-- Fallback pattern 7 (line 360).  The source file's bullet is the
three-character mojibake sequence with code points 226, 8364, 162, and the
pattern contains a doubled backslash, so it requires a literal backslash
character (92) followed by optional letters s before the separator. -/
def pat7 : RE := rSeq [
  rChar 226, rChar 8364, rChar 162, .star false clsS,
  .grp 1 (rPlusLazy clsNameChar),
  .opt (rSeq [rPlus clsS, .grp 2 (rPlus clsD), .star false clsS, inchAlt]),
  rChar 92, .star false (rCharCI 115),
  .opt (.cls (fun c => c = 58 || c = 124 || c = 45)),
  .star false clsS, .opt (rChar 36), .grp 3 priceNum]

/-- The ordered fallback pattern list, each with its group count. -/
def fallbackPatterns : List (RE × Nat) :=
  [(pat1, 3), (pat2, 3), (pat3, 3), (pat4, 3), (pat5, 3), (pat6, 2), (pat7, 3)]

/-- Promotion-name pattern (`email_handler.py` line 73). -/
def promoNamePat : RE := rSeq [
  rAlts [rStrCI "promo", rStrCI "promotion", rStrCI "discount",
         rStrCI "special", rStrCI "offer"],
  .star false clsS, .opt (rAlts [rStrCI "name", rStrCI "code"]),
  .star false clsS, .cls (fun c => c = 58 || c = 45), .star false clsS,
  .grp 1 (rPlus (.cls (fun c => !(c = 10 || c = 44))))]

/-- Promotion-start pattern (line 74). -/
def promoStartPat : RE := rSeq [
  rAlts [rStrCI "valid", rStrCI "active",
         .cat (rStrCI "start") (.opt (rCharCI 115)), rStrCI "from"],
  .star false clsS, .opt (rAlts [rStrCI "on", rStrCI "from"]), .star false clsS,
  .grp 1 (rPlus (.cls (fun c => isDigitC c || c = 45 || c = 47)))]

/-- Promotion-end pattern (line 75). -/
def promoEndPat : RE := rSeq [
  rAlts [rStrCI "until", .cat (rStrCI "end") (.opt (rCharCI 115)),
         rStrCI "through", rStrCI "until"],
  .star false clsS,
  .grp 1 (rPlus (.cls (fun c => isDigitC c || c = 45 || c = 47)))]

/-- Promotion-discount pattern (line 76). -/
def promoDiscountPat : RE :=
  .grp 1 (rSeq [rPlus clsD, .star false clsS, rChar 37, .star false clsS,
                rAlts [rStrCI "discount", rStrCI "off"]])

/-- The per-line tier pattern of the dict-building
`EmailHandler._parse_volume_discounts` (line 57). -/
def volLinePat : RE := rSeq [
  .grp 1 (rPlus clsD), .star false clsS,
  .opt (rAlts [rStrCI "to", rChar 45]), .star false clsS,
  .opt (.cat (.grp 2 (rPlus clsD)) (.star false clsS)),
  rStrCI "sqft", .star false clsS, .cls (fun c => c = 58 || c = 45),
  .star false clsS, .grp 3 numFrac, .star false clsS, rChar 37]

/-- The standalone discount search of `_fallback_email_parse` (line 345). -/
def discountPat : RE := rSeq [
  .opt (rSeq [rStrCI "discount", rPlus clsS, rStrCI "of", rPlus clsS]),
  .grp 1 numFrac, .star false clsS, rChar 37, .star false clsS,
  .opt (rAlts [rStrCI "off", rStrCI "discount"])]

/-- The minimum-quantity search of `_fallback_email_parse` (line 349). -/
def minQtyPat : RE := rSeq [
  rAlts [rStrCI "above", rStrCI "over", rStrCI "minimum", rStrCI "min"],
  .star false clsS,
  .opt (rAlts [rSeq [rStrCI "the", rPlus clsS, rStrCI "range", rPlus clsS, rStrCI "of"],
               rStrCI "order", rStrCI "qty", rStrCI "quantity"]),
  .star false clsS, .grp 1 (rPlus clsD), .star false clsS,
  .opt (rAlts [rSeq [rStrCI "sq", .opt (rChar 46), .star false clsS, rStrCI "ft"],
               rStrCI "sqft",
               rSeq [rStrCI "square", rPlus clsS, rStrCI "feet"]])]

/-- Value of `float(tok)` on a regex number token of shape `digits[.digits]`
(`"5."` included, which Python reads as `5.0`). -/
def parseFloatTok (s : PyStr) : ℚ :=
  let ip := s.takeWhile isDigitC
  match s.dropWhile isDigitC with
  | d :: f => if d = 46 then floatOfParts ip (f.takeWhile isDigitC)
              else floatOfParts ip []
  | [] => floatOfParts ip []

/-- Fuel-driven worker for the tag-removing substitution: every step
consumes at least one character, so fuel at least the length of the string
makes the zero-fuel branch unreachable. -/
def stripHtmlA : Nat → PyStr → PyStr
  | _, [] => []
  | 0, s => s
  | fuel + 1, c :: rest =>
    if c = 60 then
      if (rest.takeWhile (fun d => !(d = 62))).isEmpty then
        60 :: stripHtmlA fuel rest
      else
        match rest.dropWhile (fun d => !(d = 62)) with
        | 62 :: after => stripHtmlA fuel after
        | _ => 60 :: stripHtmlA fuel rest
    else c :: stripHtmlA fuel rest

/-- `re.sub(r'<[^>]+>', '', s)`: remove every HTML-tag-like span. -/
def stripHtml (s : PyStr) : PyStr := stripHtmlA s.length s

/-- The promotion-metadata dict built by
`EmailHandler._extract_promotion_info` (lines 69–84): one optional entry
per heuristic pattern. -/
structure PromoInfo where
  name : Option PyStr
  start_date : Option PyStr
  end_date : Option PyStr
  discount : Option PyStr
deriving DecidableEq, Repr

/-- `EmailHandler._extract_promotion_info`: first match of each pattern,
stripped; an empty dict is returned as `None`. -/
def _extract_promotion_info (body : PyStr) : Option PromoInfo :=
  let g1 := fun pat => (reSearch body pat).bind
    (fun m => (mGroup body m 1).map pyStrip)
  let nm := g1 promoNamePat
  let sd := g1 promoStartPat
  let ed := g1 promoEndPat
  let dc := g1 promoDiscountPat
  if nm.isNone && sd.isNone && ed.isNone && dc.isNone then none
  else some ⟨nm, sd, ed, dc⟩

/-- In-place overwrite of a dict key, insertion order preserved. -/
def upsertKey (k : PyStr) (v : ℚ) : List (PyStr × ℚ) → List (PyStr × ℚ)
  | [] => [(k, v)]
  | (k0, v0) :: rest =>
    if k0 = k then (k0, v) :: rest else (k0, v0) :: upsertKey k v rest

/-- `EmailHandler._parse_volume_discounts` (lines 52–67): a dict keyed by
`"<min>-<max or inf>"` (a falsy max also reads as `inf`), empty returned
as `None`. -/
def _parse_volume_discounts (discount_text : PyStr) : Option (List (PyStr × ℚ)) :=
  let d := (splitOnChar 10 discount_text).foldl (fun acc line =>
    match reSearch line volLinePat with
    | some m =>
      match mGroup line m 1, mGroup line m 3 with
      | some g1s, some g3s =>
        let min_qty := natOfDigits g1s
        let max_qty := (mGroup line m 2).map natOfDigits
        let discount := parseFloatTok g3s
        let key := natToDigits min_qty ++ [45] ++
          (match max_qty with
           | some mq => if mq ≠ 0 then natToDigits mq else codes "inf"
           | none => codes "inf")
        upsertKey key discount acc
      | _, _ => acc
    | none => acc) []
  if d.isEmpty then none else some d

/-- An extracted product dict as built by `_fallback_email_parse`
(lines 401–409): all seven keys always present. -/
structure XProd where
  name : PyStr
  price_per_sqft : ℚ
  width : Option PyStr
  discount_percentage : Option ℚ
  min_qty_discount : Option Int
  promotion : Option PromoInfo
  volume_discounts : Option (List (PyStr × ℚ))
deriving DecidableEq, Repr

/-- An extraction response: the `products` list plus `notes`. -/
structure Response where
  products : List XProd
  notes : PyStr
deriving DecidableEq, Repr

/-- Python substring test (`needle in hay`). -/
def strSubstr (needle : PyStr) : PyStr → Bool
  | [] => needle.isEmpty
  | c :: t => needle.isPrefixOf (c :: t) || strSubstr needle t

/-- The recognised wood vocabulary (line 398). -/
def woodTypes : List PyStr :=
  [codes "oak", codes "maple", codes "walnut", codes "bamboo",
   codes "cork", codes "cherry", codes "hickory", codes "ash"]

/-- The per-match branch of the fallback loop (lines 367–393), yielding the
`(name, width, price)` candidate strings; `none` both for the 1-group
`continue` and for the `AttributeError` of a missing first group, which the
surrounding `except` also turns into `continue`. -/
def matchCandidate (clean : PyStr) (ngroups : Nat) (m : RMatch) :
    Option (Option PyStr × Option PyStr × Option PyStr) :=
  let g1 := mGroup clean m 1
  let g2 := mGroup clean m 2
  let g3 := mGroup clean m 3
  if ngroups = 3 then
    match g1 with
    | none => none
    | some s1 =>
      if pyIsdigit (pyStrip s1) then some (g2, g1, g3)
      else if (match g2 with
               | some s2 => !s2.isEmpty && pyIsdigit (pyStrip s2)
               | none => false) then some (g1, g2, g3)
      else
        some (g1, none,
          match g2 with
          | some s2 => if s2.isEmpty then g3 else some s2
          | none => g3)
  else if ngroups = 2 then some (g1, none, g2)
  else none

/-- The body of the inner match loop of `_fallback_email_parse`
(lines 365–424): guards, normalization, and the duplicate-suppressed
append. -/
def buildStep (clean : PyStr) (discount_pct : Option ℚ)
    (min_qty : Option Int) (promo : Option PromoInfo)
    (vols : Option (List (PyStr × ℚ))) (ngroups : Nat)
    (products : List XProd) (m : RMatch) : List XProd :=
  match matchCandidate clean ngroups m with
  | none => products
  | some (nameO, widthO, priceO) =>
    match nameO, priceO with
    | some nameS, some priceS =>
      if nameS.isEmpty || priceS.isEmpty then products
      else
        let name := _normalize_product_name nameS
        let price_float := parseFloatTok priceS
        if woodTypes.any (fun w => strSubstr w (lowerStr name)) then
          if 2 < name.length && _is_valid_price price_float then
            let wNorm : Option PyStr :=
              match widthO with
              | some ws => if ws.isEmpty then none else _normalize_width ws
              | none => none
            if products.any (fun p =>
                p.name = name && p.width = wNorm
                  && p.price_per_sqft = price_float)
            then products
            else products ++
              [⟨name, price_float, wNorm, discount_pct, min_qty, promo, vols⟩]
          else products
        else products
    | _, _ => products

/-- The product-collection loop of `_fallback_email_parse` (lines 363–424):
every match of every pattern contributes, subject to the wood-vocabulary
and price guards, with duplicates by `(name, width, price)` suppressed. -/
def buildProducts (clean : PyStr) (discount_pct : Option ℚ)
    (min_qty : Option Int) (promo : Option PromoInfo)
    (vols : Option (List (PyStr × ℚ))) : List XProd :=
  fallbackPatterns.foldl (fun products pg =>
    (reFinditer clean pg.1).foldl
      (buildStep clean discount_pct min_qty promo vols pg.2) products) []

/-- `EmailHandler._fallback_email_parse` (lines 336–433). -/
def _fallback_email_parse (email_content : PyStr) : Option Response :=
  let clean := stripHtml email_content
  let promo_info := _extract_promotion_info clean
  let volume_discounts := _parse_volume_discounts clean
  let discount_pct := (reSearch clean discountPat).bind
    (fun m => (mGroup clean m 1).map parseFloatTok)
  let min_qty := (reSearch clean minQtyPat).bind
    (fun m => (mGroup clean m 1).map (fun s => (natOfDigits s : Int)))
  let products := buildProducts clean discount_pct min_qty promo_info volume_discounts
  if products.isEmpty then none
  else some ⟨products, codes "Parsed using regex fallback"⟩

end EH

/-! ## `gemini_client.py`: per-product validation of the LLM JSON output -/

namespace Gem

/-- A scalar JSON/Python value inside a product object; `coll` stands for a
list or dict value, carrying its truthiness and its `str()` text. -/
inductive JVal where
  | s (v : PyStr)
  | f (v : ℚ)
  | i (v : Int)
  | b (v : Bool)
  | null
  | coll (truthy : Bool) (repr : PyStr)
deriving DecidableEq, Repr

/-- An element of the raw `products` list: a JSON object, or something
else (skipped by the `isinstance(product, dict)` guard). -/
inductive JItem where
  | obj (fields : List (PyStr × JVal))
  | nonDict
deriving DecidableEq, Repr

/-- `dict.get`. -/
def jget (fields : List (PyStr × JVal)) (k : PyStr) : Option JVal :=
  (fields.find? (fun kv => kv.1 = k)).map (fun kv => kv.2)

/-- Python truthiness of a `JVal`. -/
def jTruthy : JVal → Bool
  | .s v => !v.isEmpty
  | .f v => v != 0
  | .i v => v != 0
  | .b v => v
  | .null => false
  | .coll t _ => t

/-- Integer truncation toward zero (Python `int(float)`). -/
def ratTrunc (q : ℚ) : Int := if q < 0 then -((-q).floor) else q.floor

/-- Python `float(v)`: `none` models the `ValueError`/`TypeError` raised on
`None`, collections and non-numeric strings.  String parsing is modelled
for optionally signed decimal literals with optional surrounding
whitespace, the shapes that occur in LLM output. -/
def pyFloat : JVal → Option ℚ
  | .f v => some v
  | .i v => some (v : ℚ)
  | .b v => some (if v then 1 else 0)
  | .null => none
  | .coll _ _ => none
  | .s v =>
    let t := pyStrip v
    let (sgn, t) : ℚ × PyStr :=
      match t with
      | 45 :: rest => (-1, rest)
      | 43 :: rest => (1, rest)
      | _ => (1, t)
    let ip := t.takeWhile isDigitC
    match t.dropWhile isDigitC with
    | [] => if ip.isEmpty then none else some (sgn * floatOfParts ip [])
    | 46 :: f =>
      if f.all isDigitC && !(ip.isEmpty && f.isEmpty) then
        some (sgn * floatOfParts ip f)
      else none
    | _ => none

/-- Python `int(v)`: fails on non-integer strings (`int("5.5")` raises),
truncates floats, rejects `None` and collections. -/
def pyInt : JVal → Option Int
  | .i v => some v
  | .f v => some (ratTrunc v)
  | .b v => some (if v then 1 else 0)
  | .null => none
  | .coll _ _ => none
  | .s v =>
    let t := pyStrip v
    match t with
    | 45 :: rest => if pyIsdigit rest then some (-(natOfDigits rest : Int)) else none
    | 43 :: rest => if pyIsdigit rest then some (natOfDigits rest : Int) else none
    | _ => if pyIsdigit t then some (natOfDigits t : Int) else none

/-- Decimal text of a rational whose denominator divides a power of ten
(every numeric value that reaches `str()` in this pipeline was parsed from
a decimal literal); integers print with a trailing `.0` as Python floats
do. -/
def decRepr (q : ℚ) : PyStr :=
  let sign : PyStr := if q < 0 then [45] else []
  let a := |q|
  match (List.range 28).find? (fun k => (a * (10 : ℚ) ^ k).den = 1) with
  | some 0 => sign ++ natToDigits a.num.toNat ++ codes ".0"
  | some k =>
    let n := (a * (10 : ℚ) ^ k).num.toNat
    let ds := natToDigits n
    let ds := (List.replicate (k + 1 - ds.length) 48) ++ ds
    sign ++ ds.take (ds.length - k) ++ [46] ++ ds.drop (ds.length - k)
  | none => codes "?"

/-- Python `str(v)` for the scalar values above. -/
def pyStrOf : JVal → PyStr
  | .s v => v
  | .f v => decRepr v
  | .i v => (if v < 0 then [45] else []) ++ natToDigits v.natAbs
  | .b v => if v then codes "True" else codes "False"
  | .null => codes "None"
  | .coll _ r => r

/-- A validated product as assembled by `parse_email_response`
(`gemini_client.py` lines 190–222): `width` is always set (possibly to
`None`), the four optional fields are present only when their coercion
succeeded. -/
structure VProd where
  name : PyStr
  price_per_sqft : ℚ
  width : Option PyStr
  discount_percentage : Option ℚ
  min_qty_discount : Option Int
  promotion : Option PyStr
  volume_discounts : Option PyStr
deriving DecidableEq, Repr

/-- The keep-or-drop decision of the validation loop for one product
object whose (stripped) name is `name`: the body of
`gemini_client.py` lines 186–222. -/
def keepOne (fields : List (PyStr × JVal)) (name : PyStr) : Option VProd :=
  let priceV := jget fields (codes "price_per_sqft")
  if !name.isEmpty && (match priceV with
                       | some v => jTruthy v
                       | none => false) then
    match pyFloat (priceV.getD .null) with
    | none => none
    | some price_float =>
      if decide ((1 : ℚ)/100 ≤ price_float) && decide (price_float ≤ 1000) then
        let width : Option PyStr :=
          match jget fields (codes "width") with
          | some wv =>
            if jTruthy wv then
              let ws := pyStrip (pyStrOf wv)
              some (if !ws.isEmpty && ws.getLast? ≠ some 34 then ws ++ [34] else ws)
            else none
          | none => none
        let dp : Option ℚ :=
          match jget fields (codes "discount_percentage") with
          | some v => if v ≠ .null then pyFloat v else none
          | none => none
        let mq : Option Int :=
          match jget fields (codes "min_qty_discount") with
          | some v => if v ≠ .null then pyInt v else none
          | none => none
        let promo : Option PyStr :=
          match jget fields (codes "promotion") with
          | some v => if jTruthy v then some (pyStrip (pyStrOf v)) else none
          | none => none
        let vol : Option PyStr :=
          match jget fields (codes "volume_discounts") with
          | some v => if jTruthy v then some (pyStrip (pyStrOf v)) else none
          | none => none
        some ⟨name, price_float, width, dp, mq, promo, vol⟩
      else none
  else none

/-- The per-product validation loop of `parse_email_response`
(`gemini_client.py` lines 175–224) over the raw `products` list.  The only
uncaught exception is the `AttributeError` of `.strip()` on a non-string
`name` value (the per-field coercions catch their own
`ValueError`/`TypeError`); it is modelled as `Except.error`, and in the
source it aborts the whole parse into the regex fallback. -/
def validateProducts : List JItem → Except Unit (List VProd)
  | [] => .ok []
  | .nonDict :: rest => validateProducts rest
  | .obj fields :: rest => do
    let nameV := (jget fields (codes "name")).getD (.s [])
    match nameV with
    | .s rawName =>
      let name := pyStrip rawName
      let tail ← validateProducts rest
      .ok ((match keepOne fields name with | some v => [v] | none => []) ++ tail)
    | _ => .error ()

/-- What claim C7 (as amended) predicts for one raw product: kept exactly
when the stripped name and the price are truthy and the price coerces into
`[0.01, 1000.0]`; the width is the raw width's text, stripped, with a
closing double quote appended when nonempty and not already present
(`None` for a falsy width); each optional field is included only when its
own coercion succeeds. -/
def claimKeep : JItem → Option VProd
  | .nonDict => none
  | .obj fields =>
    match (jget fields (codes "name")).getD (.s []) with
    | .s rawName =>
      let name := pyStrip rawName
      let priceV := jget fields (codes "price_per_sqft")
      if name.isEmpty then none
      else if !(match priceV with | some v => jTruthy v | none => false) then none
      else
        match pyFloat (priceV.getD .null) with
        | none => none
        | some price_float =>
          if ¬ ((1 : ℚ)/100 ≤ price_float ∧ price_float ≤ 1000) then none
          else
            let width : Option PyStr :=
              match jget fields (codes "width") with
              | some wv =>
                if jTruthy wv then
                  let ws := pyStrip (pyStrOf wv)
                  some (if !ws.isEmpty && ws.getLast? ≠ some 34 then ws ++ [34] else ws)
                else none
              | none => none
            some ⟨name, price_float, width,
              (match jget fields (codes "discount_percentage") with
               | some v => if v ≠ .null then pyFloat v else none
               | none => none),
              (match jget fields (codes "min_qty_discount") with
               | some v => if v ≠ .null then pyInt v else none
               | none => none),
              (match jget fields (codes "promotion") with
               | some v => if jTruthy v then some (pyStrip (pyStrOf v)) else none
               | none => none),
              (match jget fields (codes "volume_discounts") with
               | some v => if jTruthy v then some (pyStrip (pyStrOf v)) else none
               | none => none)⟩
    | _ => none

end Gem

/-! ## `email_handler.py`: verification and the reply-processing loop -/

namespace EH

/-- `EmailHandler.verify_database_update` (lines 15–27): re-read the
catalog and accept any row of the same name (and width, when given) whose
stored `standard_price` is within `0.01` of the applied price. -/
def verify_database_update (db : DB.Db) (name : PyStr) (price : ℚ)
    (width : Option PyStr) : Bool :=
  (DB.get_products db).any (fun p =>
    p.name = name && (width.isNone || p.width = width)
      && decide (|p.standard_price - price| < (1 : ℚ)/100))

/-- A fetched mailbox message (the fields the processor reads). -/
structure Msg where
  id : PyStr
  thread_id : PyStr
  sender : PyStr
  subject : PyStr
  body : PyStr
deriving DecidableEq, Repr

/-- The `promotion` value of an extracted product dict as
`check_replies_and_save` sees it: absent (so `get('promotion', {})` yields
an empty dict), an explicit `None`, a string (LLM output), or a promo-info
dict (both extractors). -/
inductive PromoVal where
  | absent
  | noneV
  | str (s : PyStr)
  | dict (p : PromoInfo)
deriving DecidableEq, Repr

/-- `promo.get('name') if isinstance(promo, dict) else None`
(lines 243–245; an absent key defaults to the empty dict). -/
def promoName : PromoVal → Option PyStr
  | .dict p => p.name
  | _ => none

/-- The `volume_discounts` value of an extracted product dict. -/
inductive VolVal where
  | noneV
  | str (s : PyStr)
  | dict (d : List (PyStr × ℚ))
deriving DecidableEq, Repr

/-- `json.dumps` of a flat string-to-float dict. -/
def jsonDumpsVol (d : List (PyStr × ℚ)) : PyStr :=
  codes "\x7b" ++
    List.intercalate (codes ", ")
      (d.map (fun kv => [34] ++ kv.1 ++ [34] ++ codes ": " ++ Gem.decRepr kv.2)) ++
  codes "\x7d"

/-- An extracted product dict as consumed by the reply processor; numeric
fields are numeric here (both extraction strategies produce numbers, and
the `float(price)` call is then the identity). -/
structure RProd where
  name : Option PyStr
  width : Option PyStr
  price_per_sqft : Option ℚ
  discount_percentage : Option ℚ
  min_qty_discount : Option Int
  promotion : PromoVal
  volume_discounts : VolVal
deriving DecidableEq, Repr

/-- An entry of the `updated_products` list (lines 259–265). -/
structure Applied where
  name : PyStr
  price : ℚ
  discount : Option ℚ
  promotion : Option PyStr
  volume_discounts : Option PyStr
deriving DecidableEq, Repr

/-- One per-supplier result (lines 290–295). -/
structure SupplierResult where
  supplier : PyStr
  products : List Applied
  status : PyStr
  message : PyStr
deriving DecidableEq, Repr

/-- The body of the per-product loop of `check_replies_and_save`
(lines 211–279): truthiness and price-bound guards, normalization, the
catalog write, and the verify-after-write check; `none` is a skipped or
unverified product. -/
def processProduct (db : DB.Db) (now : Nat) (p : RProd) : DB.Db × Option Applied :=
  match p.name, p.price_per_sqft with
  | some nm, some pr =>
    if nm.isEmpty || pr = 0 then (db, none)
    else
      let price_float := pr
      if !_is_valid_price price_float then (db, none)
      else
        let name := _normalize_product_name nm
        let width : Option PyStr :=
          match p.width with
          | some w => if w.isEmpty then none else _normalize_width w
          | none => none
        let vol_disc : Option PyStr :=
          match p.volume_discounts with
          | .noneV => none
          | .str s => some s
          | .dict d => some (jsonDumpsVol d)
        let upd := DB.update_product_price db name price_float width
          p.discount_percentage p.min_qty_discount (promoName p.promotion)
          vol_disc none now
        if upd.1 then
          if verify_database_update upd.2 name price_float width then
            let display := match width with
              | some w => name ++ codes " (" ++ w ++ codes ")"
              | none => name
            (upd.2, some ⟨display, price_float, p.discount_percentage,
                          promoName p.promotion, vol_disc⟩)
          else (upd.2, none)
        else (upd.2, none)
  | _, _ => (db, none)

/-- The product loop over one message's extracted products, threading the
catalog state and collecting the verified-applied entries in order. -/
def processProducts (db : DB.Db) (now : Nat) : List RProd → DB.Db × List Applied
  | [] => (db, [])
  | p :: rest =>
    let (db2, a) := processProduct db now p
    let (db3, tail) := processProducts db2 now rest
    (db3, (match a with | some x => [x] | none => []) ++ tail)

/-- Observable mailbox effects of processing one message. -/
inductive Ev where
  | extracted
  | markedRead
  | archived
deriving DecidableEq, Repr

/-- The body of the per-message loop of `check_replies_and_save`
(lines 183–304), parameterised by the extraction engine: self-sent
messages are dropped before extraction; a message is marked read and
archived, its thread untracked, and a result emitted exactly when its
`updated_products` list is nonempty. -/
def processMessage (extract : PyStr → Option (List RProd)) (own : Option PyStr)
    (db : DB.Db) (threads : List PyStr) (now : Nat) (m : Msg) :
    (DB.Db × List PyStr) × Option SupplierResult × List Ev :=
  let isSelf := match own with
    | some e => !e.isEmpty && lowerStr m.sender = lowerStr e
    | none => false
  if isSelf then ((db, threads), none, [])
  else
    match extract m.body with
    | none => ((db, threads), none, [.extracted])
    | some products =>
      if products.isEmpty then ((db, threads), none, [.extracted])
      else
        let (db2, applied) := processProducts db now products
        if applied.isEmpty then ((db2, threads), none, [.extracted])
        else
          let threads2 :=
            if !m.thread_id.isEmpty && threads.contains m.thread_id
            then threads.erase m.thread_id else threads
          ((db2, threads2),
           some ⟨m.sender, applied, codes "processed",
                 codes "Updated " ++ natToDigits applied.length
                   ++ codes " product(s)"⟩,
           [.extracted, .markedRead, .archived])

/-- The query ladder of `check_replies_and_save` (lines 155–163). -/
def queriesToTry : List PyStr :=
  [codes "subject:\"Re: Price Update Request - PrimeLine Flooring\" is:unread",
   codes "subject:\"Re: Price Update Request - FloorCraft AI\" is:unread",
   codes "subject:\"Re: Price Update Request\" is:unread",
   codes "subject:\"Re: Price Update Request - PrimeLine Flooring\"",
   codes "subject:\"Re: Price Update Request - FloorCraft AI\"",
   codes "subject:\"Re: Price Update Request\"",
   codes "subject:\"Price Update\""]

/-- Use the first query whose (nonempty) text returns any messages
(lines 165–180). -/
def firstNonemptyQuery (inbox : PyStr → List Msg) : List PyStr → List Msg
  | [] => []
  | q :: qs =>
    if (pyStrip q).isEmpty then firstNonemptyQuery inbox qs
    else
      match inbox q with
      | [] => firstNonemptyQuery inbox qs
      | ms => ms

/-- The outcome of one run of the reply processor: the result list, the
final catalog and thread set, and the mailbox effects tagged with the
index of the message that caused them. -/
structure RunOut where
  results : List SupplierResult
  db : DB.Db
  threads : List PyStr
  events : List (Nat × Ev)
deriving Repr

/-- One fold step of the run. -/
def runStep (extract : PyStr → Option (List RProd)) (own : Option PyStr)
    (now : Nat) (st : RunOut) (im : Nat × Msg) : RunOut :=
  let out := processMessage extract own st.db st.threads now im.2
  { results := st.results ++ (match out.2.1 with | some r => [r] | none => []),
    db := out.1.1, threads := out.1.2,
    events := st.events ++ out.2.2.map (fun e => (im.1, e)) }

/-- `EmailHandler.check_replies_and_save` (lines 146–306), with the mailbox
(`inbox`), the extraction engine (`extract`), the account's own address
(`own`, `None` when `get_user_email` failed) and the clock as explicit
collaborators. -/
def check_replies_and_save (inbox : PyStr → List Msg)
    (extract : PyStr → Option (List RProd)) (own : Option PyStr)
    (db : DB.Db) (threads : List PyStr) (now : Nat) : RunOut :=
  let messages := firstNonemptyQuery inbox queriesToTry
  messages.enum.foldl (runStep extract own now) ⟨[], db, threads, []⟩

end EH

/-! ## Claim-side definitions used by the verification theorems -/

/-- 23:59:59 of the same day (the spec's end-of-day promotion of an end
date). -/
def endOfDay (d : PyDateTime) : PyDateTime :=
  { d with hour := 23, minute := 59, second := 59 }

/-- The date portion of an ISO date or date-time string (its first ten
characters, `YYYY-MM-DD`). -/
def datePortion (s : PyStr) : PyStr := s.take 10

/-- The spec-side re-read check of the reply processor: some catalog row
with the written name (and width, when one was written) stores a price
within `0.01` of the applied price. -/
def verifiedInDb (db : DB.Db) (nm : PyStr) (w : Option PyStr) (pr : ℚ) : Prop :=
  ∃ row ∈ db, row.name = nm ∧ (w = none ∨ row.width = w)
    ∧ |row.standard_price - pr| < (1 : ℚ)/100

/-- The cost price `update_product_price` writes on its discount-aware or
simple branch: 0.7 of the new price for a truthy discount argument, the
new price itself otherwise. -/
def costAfter (d : Option ℚ) (p : ℚ) : ℚ :=
  match d with
  | some x => if x ≠ 0 then (7 : ℚ)/10 * p else p
  | none => p

/-- A sample catalog row used by concrete evaluations (a Red Oak variant
of width 7", standard price 5, cost 2). -/
def sampleRow : DB.Row :=
  ⟨codes "Red Oak", some (codes "7\""), 2, 5, none, none, none, none, none,
   none, none, 0⟩

/-- Two fallback products collide for the duplicate check exactly when
name, width and price all agree. -/
def sameKey (p q : EH.XProd) : Prop :=
  p.name = q.name ∧ p.width = q.width ∧ p.price_per_sqft = q.price_per_sqft

/-- A concrete incoming supplier reply used by the run-level evaluations. -/
def sampleMsg : EH.Msg :=
  ⟨codes "m1", codes "t1", codes "supplier@mill.com",
   codes "Re: Price Update Request", codes "body"⟩

/-- A stub extraction engine returning one fixed Red Oak product. -/
def sampleExtract : PyStr → Option (List EH.RProd) :=
  fun _ => some [⟨some (codes "Red Oak"), some (codes "7\""), some 4, none,
                  none, .absent, .noneV⟩]

/-! ## Theorems -/

/-- C3, counterexample: the claim computes days remaining from 23:59:59 of
the end date, but `get_promotion_days_remaining` subtracts from midnight:
for end date 2025-01-02 seen at 2025-01-01 12:00 the code returns 0 while
the claim's formula gives 1. -/
theorem C3_counterexample :
    DB.get_promotion_days_remaining (codes "2025-01-02")
      (⟨2025, 1, 1, 12, 0, 0⟩ : PyDateTime) = 0 ∧
    fromisoformat (codes "2025-01-02") = some ⟨2025, 1, 2, 0, 0, 0⟩ ∧
    max 0 (tdDays (endOfDay ⟨2025, 1, 2, 0, 0, 0⟩)
      (⟨2025, 1, 1, 12, 0, 0⟩ : PyDateTime)) = 1 := by decide

/-- C3 (amended): `get_promotion_days_remaining(e)` is never negative, is
0 for a missing or unparsable end date, and otherwise equals
`max(0, (end - now).days)` where `end` is the parsed end date itself
(midnight for a date-only string), not its end of day. -/
theorem C3_days_remaining_amended :
    (∀ e now, 0 ≤ DB.get_promotion_days_remaining e now) ∧
    (∀ now, DB.get_promotion_days_remaining [] now = 0) ∧
    (∀ e now, fromisoformat (DB.dateTok e) = none →
      DB.get_promotion_days_remaining e now = 0) ∧
    (∀ e now d, fromisoformat (DB.dateTok e) = some d →
      DB.get_promotion_days_remaining e now = max 0 (tdDays d now)) := by
  refine ⟨?_, ?_, ?_, ?_⟩
  · intro e now
    unfold DB.get_promotion_days_remaining
    split
    · exact le_refl 0
    · split
      · exact le_max_left 0 _
      · exact le_refl 0
  · intro now; rfl
  · intro e now h
    unfold DB.get_promotion_days_remaining
    split
    · rfl
    · rw [h]
  · intro e now d h
    unfold DB.get_promotion_days_remaining
    split
    · rename_i he
      exfalso
      have : e = [] := by
        cases e with
        | nil => rfl
        | cons a l => simp [List.isEmpty] at he
      subst this
      simp [DB.dateTok, strContains, fromisoformat, parseDigits, bind] at h
    · rw [h]

/-- C3, witness for the amended theorem at a parsable end date. -/
theorem C3_days_remaining_witness :
    fromisoformat (DB.dateTok (codes "2025-01-10")) = some ⟨2025, 1, 10, 0, 0, 0⟩ ∧
    DB.get_promotion_days_remaining (codes "2025-01-10")
      (⟨2025, 1, 1, 12, 0, 0⟩ : PyDateTime)
      = max 0 (tdDays (⟨2025, 1, 10, 0, 0, 0⟩ : PyDateTime)
          (⟨2025, 1, 1, 12, 0, 0⟩ : PyDateTime)) :=
  ⟨by decide, C3_days_remaining_amended.2.2.2 _ _ _ (by decide)⟩

/-- C5, counterexample: the claim takes the date portion of both strings,
but the code only does so for space-separated strings; with the start
`2025-01-01T10:00` and now at 2025-01-01 05:00 the code keeps the 10:00
time and answers `false`, while the date portions put now inside the
promotion window. -/
theorem C5_counterexample :
    DB.is_promotion_active (codes "2025-01-01T10:00") (codes "2025-01-31")
      (⟨2025, 1, 1, 5, 0, 0⟩ : PyDateTime) = false ∧
    fromisoformat (datePortion (codes "2025-01-01T10:00"))
      = some ⟨2025, 1, 1, 0, 0, 0⟩ ∧
    fromisoformat (datePortion (codes "2025-01-31"))
      = some ⟨2025, 1, 31, 0, 0, 0⟩ ∧
    toSec ⟨2025, 1, 1, 0, 0, 0⟩ ≤ toSec (⟨2025, 1, 1, 5, 0, 0⟩ : PyDateTime) ∧
    toSec (⟨2025, 1, 1, 5, 0, 0⟩ : PyDateTime)
      ≤ toSec (endOfDay ⟨2025, 1, 31, 0, 0, 0⟩) := by decide

/-- C5 (amended): `is_promotion_active` is `false` whenever either bound is
missing or unparsable; otherwise, with `start` parsed by
take-first-token-if-space-separated (so a `T`-separated time survives in
the start bound) and `end` promoted to 23:59:59 of its day, it answers
`start <= now <= end`; the claim's two concrete examples hold. -/
theorem C5_is_promotion_active_amended :
    (∀ s e now, s = [] ∨ e = [] ∨ fromisoformat (DB.dateTok s) = none ∨
        fromisoformat (DB.dateTok e) = none →
      DB.is_promotion_active s e now = false) ∧
    (∀ s e now st en, fromisoformat (DB.dateTok s) = some st →
        fromisoformat (DB.dateTok e) = some en →
      (DB.is_promotion_active s e now = true ↔
        toSec st ≤ toSec now ∧ toSec now ≤ toSec (endOfDay en))) ∧
    DB.is_promotion_active (codes "2025-01-01") (codes "2025-01-31")
      (⟨2025, 1, 31, 23, 0, 0⟩ : PyDateTime) = true ∧
    DB.is_promotion_active (codes "2025-01-01") (codes "2025-01-31")
      (⟨2025, 2, 1, 0, 1, 0⟩ : PyDateTime) = false := by
  refine ⟨?_, ?_, by decide, by decide⟩
  · intro s e now h
    unfold DB.is_promotion_active
    rcases h with h | h | h | h
    · subst h; rfl
    · subst h; simp
    · split
      · rfl
      · rw [h]
    · split
      · rfl
      · rw [h]; cases fromisoformat (DB.dateTok s) <;> rfl
  · intro s e now st en hs he
    have hsne : s ≠ [] := by
      intro hnil; subst hnil
      simp [DB.dateTok, strContains, fromisoformat, parseDigits, bind] at hs
    have hene : e ≠ [] := by
      intro hnil; subst hnil
      simp [DB.dateTok, strContains, fromisoformat, parseDigits, bind] at he
    unfold DB.is_promotion_active
    split
    · rename_i hemp
      exfalso
      rcases Bool.or_eq_true _ _ |>.mp hemp with h1 | h1
      · exact hsne (by cases s <;> simp_all [List.isEmpty])
      · exact hene (by cases e <;> simp_all [List.isEmpty])
    · rw [hs, he]
      simp only [endOfDay, Bool.and_eq_true, decide_eq_true_eq]

/-- C5, witness for the amended characterization at parsable bounds. -/
theorem C5_is_promotion_active_witness :
    DB.is_promotion_active (codes "2025-01-01") (codes "2025-01-31")
      (⟨2025, 1, 15, 0, 0, 0⟩ : PyDateTime) = true ↔
    (toSec ⟨2025, 1, 1, 0, 0, 0⟩ ≤ toSec (⟨2025, 1, 15, 0, 0, 0⟩ : PyDateTime) ∧
     toSec (⟨2025, 1, 15, 0, 0, 0⟩ : PyDateTime)
       ≤ toSec (endOfDay ⟨2025, 1, 31, 0, 0, 0⟩)) :=
  C5_is_promotion_active_amended.2.1 _ _ _ _ _ (by decide) (by decide)

/-- With a truthy width and a matching row, `update_product_price` returns
`True` and rewrites exactly the matching rows, through the discount-aware
or the simple branch according to whether a discount was passed. -/
theorem update_some_width_spec (db : DB.Db) (name : PyStr) (p : ℚ) (w : PyStr)
    (d : Option ℚ) (mq : Option Int) (pn vd : Option PyStr) (sid : Option Int)
    (now : Nat) (hw : w ≠ [])
    (hmatch : db.any (fun r => r.name = name && r.width = some w) = true) :
    DB.update_product_price db name p (some w) d mq pn vd sid now =
      (true, db.map (fun r =>
        if r.name = name && r.width = some w then
          (match d with
           | some x => DB.rowUpdateDiscount p x mq pn vd sid now r
           | none => DB.rowUpdateSimple p sid now r)
        else r)) := by
  have ht : truthyS (some w) = true := by
    cases w with
    | nil => exact absurd rfl hw
    | cons a l => rfl
  cases d <;> simp [DB.update_product_price, ht, hmatch]

/-- With a truthy width and a reported success, every row of the new table
that carries the written `(name, width)` key has the new standard price,
the bumped timestamp, and the cost price dictated by the truthiness of the
discount argument. -/
theorem update_some_width_fields (db : DB.Db) (name : PyStr) (p : ℚ) (w : PyStr)
    (d : Option ℚ) (mq : Option Int) (pn vd : Option PyStr) (sid : Option Int)
    (now : Nat) (hw : w ≠ [])
    (h1 : (DB.update_product_price db name p (some w) d mq pn vd sid now).1 = true) :
    ∀ r ∈ (DB.update_product_price db name p (some w) d mq pn vd sid now).2,
      r.name = name → r.width = some w →
      r.standard_price = p ∧ r.updated_at = now ∧
      r.cost_price = costAfter d p := by
  by_cases hany : db.any (fun r => r.name = name && r.width = some w) = true
  · rw [update_some_width_spec db name p w d mq pn vd sid now hw hany]
    intro r hr hn hw2
    rcases List.mem_map.mp hr with ⟨r0, _hr0, heq⟩
    by_cases hm : (r0.name = name && r0.width = some w) = true
    · rw [if_pos hm] at heq
      cases d with
      | some x =>
        subst heq
        refine ⟨rfl, rfl, ?_⟩
        simp [DB.rowUpdateDiscount, costAfter]
      | none =>
        subst heq
        exact ⟨rfl, rfl, rfl⟩
    · rw [if_neg hm] at heq
      subst heq
      exact absurd (by rw [hn, hw2]; simp) hm
  · exfalso
    have ht : truthyS (some w) = true := by
      cases w with
      | nil => exact absurd rfl hw
      | cons a l => rfl
    have hf : db.any (fun r => r.name = name && r.width = some w) = false :=
      Bool.not_eq_true _ |>.mp hany
    rw [DB.update_product_price] at h1
    simp [ht, hf] at h1

/-- C1, counterexample: with `width=None` and a row of the given name
present, the call returns `True` but changes nothing (the `pass` branch);
and with a width but no discount, a supplied promotion name is not
written.  Both contradict the claim that a successful call sets the
supplied fields. -/
theorem C1_counterexample :
    DB.update_product_price [sampleRow] (codes "Red Oak") 4 none
      none none none none none 1 = (true, [sampleRow]) ∧
    sampleRow.standard_price ≠ 4 ∧
    ((DB.update_product_price [sampleRow] (codes "Red Oak") 4
        (some (codes "7\"")) none none (some (codes "Sale")) none none 1).2.map
      DB.Row.promotion_name = [none]) := by decide

/-- C1 (amended): `update_product_price` returns `False` when no row
matches the key ((name, width) for a truthy width, name alone otherwise).
With a truthy width and a match it returns `True`, rewrites exactly the
matching rows — setting `standard_price` and bumping `updated_at`, and
writing the discount/min-qty/promotion/volume fields only when
`discount_percentage` is not `None` — while with a falsy width it returns
`True` without modifying anything. -/
theorem C1_update_product_price_amended :
    (∀ (db : DB.Db) name p (w : PyStr) d mq pn vd sid now, w ≠ [] →
      db.any (fun r => r.name = name && r.width = some w) = false →
      DB.update_product_price db name p (some w) d mq pn vd sid now = (false, db)) ∧
    (∀ (db : DB.Db) name p d mq pn vd sid now (wo : Option PyStr),
      truthyS wo = false →
      DB.update_product_price db name p wo d mq pn vd sid now
        = (if db.any (fun r => r.name = name) then (true, db) else (false, db))) ∧
    (∀ (db : DB.Db) name p (w : PyStr) d mq pn vd sid now, w ≠ [] →
      db.any (fun r => r.name = name && r.width = some w) = true →
      DB.update_product_price db name p (some w) d mq pn vd sid now =
        (true, db.map (fun r =>
          if r.name = name && r.width = some w then
            (match d with
             | some x => DB.rowUpdateDiscount p x mq pn vd sid now r
             | none => DB.rowUpdateSimple p sid now r)
          else r))) ∧
    (∀ (db : DB.Db) name p (w : PyStr) d mq pn vd sid now, w ≠ [] →
      (DB.update_product_price db name p (some w) d mq pn vd sid now).1 = true →
      ∀ r ∈ (DB.update_product_price db name p (some w) d mq pn vd sid now).2,
        r.name = name → r.width = some w →
        r.standard_price = p ∧ r.updated_at = now) := by
  refine ⟨?_, ?_, ?_, ?_⟩
  · intro db name p w d mq pn vd sid now hw hnone
    have ht : truthyS (some w) = true := by
      cases w with
      | nil => exact absurd rfl hw
      | cons a l => rfl
    cases d <;> simp [DB.update_product_price, ht, hnone]
  · intro db name p d mq pn vd sid now wo hwo
    rw [DB.update_product_price, hwo]
    simp only [Bool.false_eq_true, if_false]
  · intro db name p w d mq pn vd sid now hw hmatch
    exact update_some_width_spec db name p w d mq pn vd sid now hw hmatch
  · intro db name p w d mq pn vd sid now hw h1 r hr hn hw2
    exact ⟨(update_some_width_fields db name p w d mq pn vd sid now hw h1 r hr hn hw2).1,
           (update_some_width_fields db name p w d mq pn vd sid now hw h1 r hr hn hw2).2.1⟩

/-- C1, witness: the amended behaviour at a concrete row, width and
discount. -/
theorem C1_update_product_price_witness :
    DB.update_product_price [sampleRow] (codes "Red Oak") 4
      (some (codes "7\"")) (some 10) (some 500) (some (codes "Sale")) none none 1 =
      (true, [sampleRow].map (fun r =>
        if r.name = codes "Red Oak" && r.width = some (codes "7\"") then
          DB.rowUpdateDiscount 4 10 (some 500) (some (codes "Sale")) none none 1 r
        else r)) :=
  C1_update_product_price_amended.2.2.1 [sampleRow] (codes "Red Oak") 4
    (codes "7\"") (some 10) (some 500) (some (codes "Sale")) none none 1
    (by decide) (by decide)

unseal Rat.mul Rat.inv Rat.add Rat.sub in
/-- C9, counterexample: a supplied but zero `discount_percentage` is falsy,
so the matched row's `cost_price` becomes `new_price` itself, not
`0.7 * new_price` as the claim predicts for every supplied discount. -/
theorem C9_counterexample :
    ((DB.update_product_price [sampleRow] (codes "Red Oak") 4
        (some (codes "7\"")) (some 0) none none none none 1).2.map
      DB.Row.cost_price = [4]) ∧ (4 : ℚ) ≠ (7 : ℚ)/10 * 4 := by decide

/-- C9 (amended): every successful width-given update overwrites the
matched rows' `cost_price` — with `0.7 * new_price` when a nonzero
discount percentage is supplied, and with `new_price` itself when the
discount is absent or zero; the previous cost price never survives. -/
theorem C9_cost_price_amended :
    ∀ (db : DB.Db) name p (w : PyStr) d mq pn vd sid now, w ≠ [] →
      (DB.update_product_price db name p (some w) d mq pn vd sid now).1 = true →
      ∀ r ∈ (DB.update_product_price db name p (some w) d mq pn vd sid now).2,
        r.name = name → r.width = some w →
        r.cost_price = costAfter d p := by
  intro db name p w d mq pn vd sid now hw h1 r hr hn hw2
  exact (update_some_width_fields db name p w d mq pn vd sid now hw h1 r hr hn hw2).2.2

/-- C9, witness: at a concrete nonzero discount the cost price of the one
matched row becomes the 0.7-scaled new price. -/
theorem C9_cost_price_witness :
    ((DB.update_product_price [sampleRow] (codes "Red Oak") 4
        (some (codes "7\"")) (some 10) none none none none 1).2.map
      DB.Row.cost_price) = [costAfter (some 10) 4] := by
  have e : (DB.update_product_price [sampleRow] (codes "Red Oak") 4
      (some (codes "7\"")) (some 10) none none none none 1).2
      = [DB.rowUpdateDiscount 4 10 none none none none 1 sampleRow] := by
    rw [update_some_width_spec [sampleRow] (codes "Red Oak") 4 (codes "7\"")
      (some 10) none none none none 1 (by decide) (by decide)]
    rfl
  have hr := C9_cost_price_amended [sampleRow] (codes "Red Oak") 4 (codes "7\"")
    (some 10) none none none none 1 (by decide) (by decide)
    (DB.rowUpdateDiscount 4 10 none none none none 1 sampleRow)
    (by rw [e]; exact List.Mem.head _) rfl rfl
  rw [e, List.map_singleton, hr]

/-! ### C10: idempotence of the normalizers -/

/-- Elements of a `takeWhile` prefix satisfy the predicate, and appending
past a failing element stops it there. -/
theorem takeWhile_append_of (p : Nat → Bool) (xs : PyStr) (y : Nat) (ys : PyStr)
    (hxs : ∀ c ∈ xs, p c = true) (hy : p y = false) :
    (xs ++ y :: ys).takeWhile p = xs := by
  induction xs with
  | nil => simp [List.takeWhile_cons, hy]
  | cons a l ih =>
    have ha : p a = true := hxs a (List.mem_cons_self a l)
    simp only [List.cons_append, List.takeWhile_cons, ha, if_true]
    rw [ih (fun c hc => hxs c (List.mem_cons_of_mem a hc))]

/-- `dropWhile` over an all-satisfying prefix stops at the first failing
element. -/
theorem dropWhile_append_of (p : Nat → Bool) (xs : PyStr) (y : Nat) (ys : PyStr)
    (hxs : ∀ c ∈ xs, p c = true) (hy : p y = false) :
    (xs ++ y :: ys).dropWhile p = y :: ys := by
  induction xs with
  | nil => simp [List.dropWhile_cons, hy]
  | cons a l ih =>
    have ha : p a = true := hxs a (List.mem_cons_self a l)
    simp only [List.cons_append, List.dropWhile_cons, ha, if_true]
    exact ih (fun c hc => hxs c (List.mem_cons_of_mem a hc))

/-- The ASCII uppercase map is idempotent. -/
theorem toUpperC_idem (c : Nat) : toUpperC (toUpperC c) = toUpperC c := by
  simp only [toUpperC, isLowerC, Bool.and_eq_true, decide_eq_true_eq]
  split_ifs <;> omega

/-- The ASCII lowercase map is idempotent. -/
theorem toLowerC_idem (c : Nat) : toLowerC (toLowerC c) = toLowerC c := by
  simp only [toLowerC, isUpperC, Bool.and_eq_true, decide_eq_true_eq]
  split_ifs <;> omega

/-- Case mapping preserves letterhood. -/
theorem isAlphaC_toUpperC (c : Nat) : isAlphaC (toUpperC c) = isAlphaC c := by
  rw [Bool.eq_iff_iff]
  simp only [isAlphaC, isUpperC, isLowerC, toUpperC, Bool.or_eq_true, Bool.and_eq_true, decide_eq_true_eq]
  split_ifs <;> omega

/-- Case mapping preserves letterhood. -/
theorem isAlphaC_toLowerC (c : Nat) : isAlphaC (toLowerC c) = isAlphaC c := by
  rw [Bool.eq_iff_iff]
  simp only [isAlphaC, isUpperC, isLowerC, toLowerC, Bool.or_eq_true, Bool.and_eq_true, decide_eq_true_eq]
  split_ifs <;> omega

/-- Case mapping preserves non-whitespace. -/
theorem isSpaceC_toUpperC (c : Nat) : isSpaceC (toUpperC c) = isSpaceC c := by
  rw [Bool.eq_iff_iff]
  simp only [isSpaceC, toUpperC, isLowerC, Bool.or_eq_true, Bool.and_eq_true, decide_eq_true_eq]
  split_ifs <;> omega

/-- Case mapping preserves non-whitespace. -/
theorem isSpaceC_toLowerC (c : Nat) : isSpaceC (toLowerC c) = isSpaceC c := by
  rw [Bool.eq_iff_iff]
  simp only [isSpaceC, toLowerC, isUpperC, Bool.or_eq_true, Bool.and_eq_true, decide_eq_true_eq]
  split_ifs <;> omega

/-- `str.title` is idempotent when restarted from the same carry state. -/
theorem titleAux_idem (l : PyStr) : ∀ b, titleAux b (titleAux b l) = titleAux b l := by
  induction l with
  | nil => intro b; rfl
  | cons c cs ih =>
    intro b
    by_cases hc : isAlphaC c = true
    · cases b with
      | false =>
        simp only [titleAux, hc, if_true, Bool.false_eq_true, if_false,
          isAlphaC_toUpperC, toUpperC_idem, ih]
      | true =>
        simp only [titleAux, hc, if_true, isAlphaC_toLowerC, toLowerC_idem, ih]
    · have hc' : isAlphaC c = false := by simpa using hc
      simp only [titleAux, hc', Bool.false_eq_true, if_false, ih]

/-- The title map distributes over a space-separated concatenation; the
carry state resets at the space. -/
theorem titleAux_append_space (xs ys : PyStr) :
    ∀ b, titleAux b (xs ++ 32 :: ys) = titleAux b xs ++ 32 :: titleAux false ys := by
  induction xs with
  | nil => intro b; rfl
  | cons a l ih =>
    intro b
    simp only [List.cons_append, titleAux, List.append_eq, ih]

/-- The title map keeps a string nonempty. -/
theorem titleAux_ne_nil (b : Bool) (w : PyStr) (h : w ≠ []) : titleAux b w ≠ [] := by
  cases w with
  | nil => exact absurd rfl h
  | cons c cs => simp [titleAux]

/-- The title map sends non-whitespace strings to non-whitespace strings. -/
theorem titleAux_nonspace (w : PyStr) (hw : ∀ c ∈ w, isSpaceC c = false) :
    ∀ b, ∀ c ∈ titleAux b w, isSpaceC c = false := by
  induction w with
  | nil => intro b c hc; simp [titleAux] at hc
  | cons a l ih =>
    intro b c hc
    have ha : isSpaceC a = false := hw a (List.mem_cons_self a l)
    rw [titleAux] at hc
    rcases List.mem_cons.mp hc with h | h
    · subst h
      by_cases hal : isAlphaC a = true
      · cases b with
        | false => simpa [hal, isSpaceC_toUpperC] using ha
        | true => simpa [hal, isSpaceC_toLowerC] using ha
      · have : isAlphaC a = false := by simpa using hal
        simpa [this] using ha
    · exact ih (fun c hc => hw c (List.mem_cons_of_mem a hc)) _ c h

/-- Dropping a prefix never lengthens a list. -/
theorem length_dropWhile_le_self {α : Type} (p : α → Bool) (l : List α) :
    (l.dropWhile p).length ≤ l.length := by
  calc (l.dropWhile p).length
      ≤ (l.takeWhile p).length + (l.dropWhile p).length := Nat.le_add_left _ _
    _ = l.length := by rw [← List.length_append, List.takeWhile_append_dropWhile]

/-- With sufficient fuel, the split worker does not depend on the exact
fuel value. -/
theorem splitWsA_fuel : ∀ f1 f2 (s : PyStr), s.length ≤ f1 → s.length ≤ f2 →
    splitWsA f1 s = splitWsA f2 s := by
  intro f1
  induction f1 with
  | zero =>
    intro f2 s h1 h2
    cases s with
    | nil => cases f2 <;> rfl
    | cons c cs => simp at h1
  | succ f ih =>
    intro f2 s h1 h2
    cases s with
    | nil => cases f2 <;> rfl
    | cons c cs =>
      cases f2 with
      | zero => simp at h2
      | succ f2' =>
        simp only [List.length_cons] at h1 h2
        simp only [splitWsA]
        by_cases hc : isSpaceC c
        · rw [if_pos hc, if_pos hc]
          exact ih f2' cs (by omega) (by omega)
        · rw [if_neg hc, if_neg hc]
          have hd := length_dropWhile_le_self (fun d => !isSpaceC d) cs
          rw [ih f2' _ (by omega) (by omega)]

/-- The recursion equation of `str.split()` on a nonempty string. -/
theorem splitWs_cons_eq (c : Nat) (cs : PyStr) :
    splitWs (c :: cs) =
      if isSpaceC c then splitWs cs
      else (c :: cs.takeWhile (fun d => !isSpaceC d)) ::
           splitWs (cs.dropWhile (fun d => !isSpaceC d)) := by
  show splitWsA (c :: cs).length (c :: cs) = _
  simp only [List.length_cons, splitWsA]
  by_cases hc : isSpaceC c
  · rw [if_pos hc, if_pos hc]
    rfl
  · rw [if_neg hc, if_neg hc]
    rw [splitWsA_fuel cs.length (cs.dropWhile (fun d => !isSpaceC d)).length _
      (length_dropWhile_le_self _ _) le_rfl]
    rfl

/-- A nonempty all-non-whitespace string splits into itself. -/
theorem splitWs_single (w : PyStr) (hne : w ≠ [])
    (hns : ∀ c ∈ w, isSpaceC c = false) : splitWs w = [w] := by
  cases w with
  | nil => exact absurd rfl hne
  | cons c cs =>
    have hc : isSpaceC c = false := hns c (List.mem_cons_self c cs)
    rw [splitWs_cons_eq]
    simp only [hc, Bool.false_eq_true, if_false]
    have ht : cs.takeWhile (fun d => !isSpaceC d) = cs :=
      List.takeWhile_eq_self_iff.mpr
        (fun x hx => by simp [hns x (List.mem_cons_of_mem c hx)])
    have hd : cs.dropWhile (fun d => !isSpaceC d) = [] :=
      List.dropWhile_eq_nil_iff.mpr
        (fun x hx => by simp [hns x (List.mem_cons_of_mem c hx)])
    rw [ht, hd]
    rfl

/-- Splitting the single-space join of nonempty, whitespace-free words
recovers exactly those words. -/
theorem splitWs_join (ws : List PyStr)
    (h : ∀ w ∈ ws, w ≠ [] ∧ ∀ c ∈ w, isSpaceC c = false) :
    splitWs (joinWords ws) = ws := by
  induction ws with
  | nil => rfl
  | cons w rest ih =>
    cases rest with
    | nil =>
      have hw := h w (List.mem_cons_self _ _)
      exact splitWs_single w hw.1 hw.2
    | cons w2 r2 =>
      have hw := h w (List.mem_cons_self _ _)
      have hrest := fun x hx => h x (List.mem_cons_of_mem w hx)
      show splitWs (w ++ 32 :: joinWords (w2 :: r2)) = w :: w2 :: r2
      cases w with
      | nil => exact absurd rfl hw.1
      | cons c cs =>
        have hc : isSpaceC c = false := hw.2 c (List.mem_cons_self _ _)
        have hcs : ∀ x ∈ cs, (fun d => !isSpaceC d) x = true :=
          fun x hx => by simp [hw.2 x (List.mem_cons_of_mem c hx)]
        rw [List.cons_append, splitWs_cons_eq]
        simp only [hc, Bool.false_eq_true, if_false]
        rw [takeWhile_append_of _ cs 32 _ hcs (by rfl),
            dropWhile_append_of _ cs 32 _ hcs (by rfl)]
        rw [splitWs_cons_eq]
        simp only [show isSpaceC 32 = true from rfl, if_true]
        rw [ih hrest]

/-- Over the join of whitespace-free words, `str.title` acts word by word. -/
theorem titleAux_join (ws : List PyStr)
    (h : ∀ w ∈ ws, w ≠ [] ∧ ∀ c ∈ w, isSpaceC c = false) :
    titleAux false (joinWords ws) = joinWords (ws.map (titleAux false)) := by
  induction ws with
  | nil => rfl
  | cons w rest ih =>
    cases rest with
    | nil => rfl
    | cons w2 r2 =>
      show titleAux false (w ++ 32 :: joinWords (w2 :: r2))
        = titleAux false w ++ 32 :: joinWords ((w2 :: r2).map (titleAux false))
      rw [titleAux_append_space]
      rw [ih (fun x hx => h x (List.mem_cons_of_mem w hx))]

/-- Every word produced by `str.split()` is nonempty and whitespace-free. -/
theorem splitWs_good (s : PyStr) :
    ∀ w ∈ splitWs s, w ≠ [] ∧ ∀ c ∈ w, isSpaceC c = false := by
  have key : ∀ n (s : PyStr), s.length ≤ n →
      ∀ w ∈ splitWs s, w ≠ [] ∧ ∀ c ∈ w, isSpaceC c = false := by
    intro n
    induction n with
    | zero =>
      intro s hs w hw
      cases s with
      | nil => simp [splitWs, splitWsA] at hw
      | cons c cs => simp at hs
    | succ n ih =>
      intro s hs w hw
      cases s with
      | nil => simp [splitWs, splitWsA] at hw
      | cons c cs =>
        simp only [List.length_cons] at hs
        rw [splitWs_cons_eq] at hw
        by_cases hc : isSpaceC c
        · rw [if_pos hc] at hw
          exact ih cs (by omega) w hw
        · rw [if_neg hc] at hw
          rcases List.mem_cons.mp hw with h | h
          · subst h
            refine ⟨by simp, ?_⟩
            intro x hx
            rcases List.mem_cons.mp hx with h | h
            · subst h
              simpa using hc
            · have := List.mem_takeWhile_imp h
              simpa using this
          · have hd := length_dropWhile_le_self (fun d => !isSpaceC d) cs
            exact ih _ (by omega) w h
  exact key s.length s le_rfl

/-- Digits are not whitespace. -/
theorem isSpaceC_of_digit (c : Nat) (h : isDigitC c = true) : isSpaceC c = false := by
  simp only [isDigitC, Bool.and_eq_true, decide_eq_true_eq] at h
  simp only [isSpaceC, Bool.or_eq_false_iff, decide_eq_false_iff_not]
  omega

/-- The token returned by the first-number search is a digit run,
optionally extended by a dot and a second digit run. -/
theorem findNum_shape (s : PyStr) :
    ∀ t, EH.findNum s = some t →
      ∃ D, D ≠ [] ∧ (∀ c ∈ D, isDigitC c = true) ∧
        (t = D ∨ ∃ F, F ≠ [] ∧ (∀ c ∈ F, isDigitC c = true) ∧ t = D ++ 46 :: F) := by
  induction s with
  | nil => intro t ht; simp [EH.findNum] at ht
  | cons c cs ih =>
    intro t ht
    rw [EH.findNum] at ht
    by_cases hc : isDigitC c = true
    · rw [if_pos hc] at ht
      injection ht with ht
      subst ht
      rw [EH.grabNum]
      refine ⟨(c :: cs).takeWhile isDigitC, ?_, fun x hx => List.mem_takeWhile_imp hx, ?_⟩
      · rw [List.takeWhile_cons, if_pos hc]; simp
      · cases hdrop : (c :: cs).dropWhile isDigitC with
        | nil => simp
        | cons d r =>
          by_cases hd : d = 46
          · subst hd
            by_cases hF : (r.takeWhile isDigitC).isEmpty
            · simp [hF]
            · have hF' : (r.takeWhile isDigitC).isEmpty = false := by
                simpa using hF
              right
              refine ⟨r.takeWhile isDigitC, ?_,
                fun x hx => List.mem_takeWhile_imp hx, ?_⟩
              · intro hnil
                rw [hnil] at hF'
                simp at hF'
              · simp [hF']
          · simp [hd]

    · rw [if_neg hc] at ht
      exact ih t ht

/-- Grabbing a number from a digit run followed by a quote returns the
run. -/
theorem grabNum_digits_quote (D : PyStr) (hdig : ∀ c ∈ D, isDigitC c = true) :
    EH.grabNum (D ++ [34]) = D := by
  rw [EH.grabNum]
  rw [takeWhile_append_of isDigitC D 34 [] hdig (by rfl),
      dropWhile_append_of isDigitC D 34 [] hdig (by rfl)]
  rfl

/-- Grabbing a number from `digits.digits"` returns `digits.digits`. -/
theorem grabNum_frac_quote (D F : PyStr) (hDdig : ∀ c ∈ D, isDigitC c = true)
    (hFne : F ≠ []) (hFdig : ∀ c ∈ F, isDigitC c = true) :
    EH.grabNum (D ++ 46 :: (F ++ [34])) = D ++ 46 :: F := by
  rw [EH.grabNum]
  rw [takeWhile_append_of isDigitC D 46 _ hDdig (by rfl),
      dropWhile_append_of isDigitC D 46 _ hDdig (by rfl)]
  have hFe : F.isEmpty = false := by
    cases F with | nil => exact absurd rfl hFne | cons a l => rfl
  simp only [takeWhile_append_of isDigitC F 34 [] hFdig (by rfl), hFe]
  simp

/-- Stripping a string that starts with a non-space and ends with a quote
changes nothing. -/
theorem pyStrip_shape (x : Nat) (xs : PyStr) (hx : isSpaceC x = false) :
    pyStrip (x :: (xs ++ [34])) = x :: (xs ++ [34]) := by
  unfold pyStrip
  rw [List.dropWhile_cons]
  simp only [hx, Bool.false_eq_true, if_false]
  rw [show x :: (xs ++ [34]) = (x :: xs) ++ [34] from rfl, List.reverse_append]
  simp only [List.reverse_cons, List.reverse_nil, List.nil_append,
    List.singleton_append, List.dropWhile_cons]
  simp only [show isSpaceC 34 = false from rfl, Bool.false_eq_true, if_false]
  simp [List.reverse_cons, List.reverse_reverse]

/-- C10: the normalizers are idempotent: renormalizing a normalized
product name returns it unchanged, and whenever `_normalize_width` returns
a width, normalizing that width returns the same width. -/
theorem C10_normalizers_idempotent :
    (∀ s : PyStr, EH._normalize_product_name (EH._normalize_product_name s)
        = EH._normalize_product_name s) ∧
    (∀ x w, EH._normalize_width x = some w → EH._normalize_width w = some w) := by
  constructor
  · intro s
    unfold EH._normalize_product_name pyTitle
    have hg := splitWs_good s
    have hmap : ∀ w ∈ (splitWs s).map (titleAux false),
        w ≠ [] ∧ ∀ c ∈ w, isSpaceC c = false := by
      intro w hw
      rcases List.mem_map.mp hw with ⟨w0, hw0, hweq⟩
      subst hweq
      exact ⟨titleAux_ne_nil _ _ (hg w0 hw0).1,
             titleAux_nonspace _ (hg w0 hw0).2 _⟩
    rw [titleAux_join _ hg, splitWs_join _ hmap, titleAux_join _ hmap,
        List.map_map]
    congr 1
    apply List.map_congr_left
    intro w _
    exact titleAux_idem w false
  · intro x w h
    unfold EH._normalize_width at h ⊢
    by_cases hx : x.isEmpty
    · rw [if_pos hx] at h
      exact absurd h (by simp)
    · rw [if_neg hx] at h
      cases hfn : EH.findNum (pyStrip x) with
      | none => rw [hfn] at h; exact absurd h (by simp)
      | some tok =>
        rw [hfn] at h
        have hw : w = tok ++ [34] := by
          injection h with h
          exact h.symm
        subst hw
        obtain ⟨D, hDne, hDdig, hshape⟩ := findNum_shape _ _ hfn
        cases D with
        | nil => exact absurd rfl hDne
        | cons d D2 =>
          have hd : isDigitC d = true := hDdig d (List.mem_cons_self _ _)
          have hdns : isSpaceC d = false := isSpaceC_of_digit d hd
          rcases hshape with htok | ⟨F, hFne, hFdig, htok⟩
          · subst htok
            rw [if_neg (by simp)]
            rw [show (d :: D2) ++ [34] = d :: (D2 ++ [34]) from rfl]
            rw [pyStrip_shape d D2 hdns]
            rw [EH.findNum, if_pos hd]
            rw [show d :: (D2 ++ [34]) = (d :: D2) ++ [34] from rfl]
            rw [grabNum_digits_quote (d :: D2) hDdig]
          · subst htok
            rw [if_neg (by simp)]
            rw [show ((d :: D2) ++ 46 :: F) ++ [34]
                  = d :: (D2 ++ 46 :: F ++ [34]) by simp]
            rw [pyStrip_shape d (D2 ++ 46 :: F) hdns]
            rw [EH.findNum, if_pos hd]
            rw [show d :: (D2 ++ 46 :: F ++ [34])
                  = (d :: D2) ++ 46 :: (F ++ [34]) by simp]
            rw [grabNum_frac_quote (d :: D2) F hDdig hFne hFdig]
            simp

/-- C10, witness: a concrete width normalizes and renormalizes to itself. -/
theorem C10_normalizers_witness :
    EH._normalize_width (codes "7 inch") = some (codes "7\"") ∧
    EH._normalize_width (codes "7\"") = some (codes "7\"") :=
  ⟨by decide, C10_normalizers_idempotent.2 (codes "7 inch") (codes "7\"") (by decide)⟩

/-! ### C4: the volume-discount evaluator on canonical tier text -/

/-- With sufficient fuel, the digit rendering does not depend on the
exact fuel value. -/
theorem natToDigitsAux_fuel (fuel1 : Nat) :
    ∀ fuel2 n, n < fuel1 → n < fuel2 →
      natToDigitsAux fuel1 n = natToDigitsAux fuel2 n := by
  induction fuel1 with
  | zero => intro fuel2 n h1; omega
  | succ f1 ih =>
    intro fuel2 n h1 h2
    cases fuel2 with
    | zero => omega
    | succ f2 =>
      rw [natToDigitsAux, natToDigitsAux]
      by_cases hn : n < 10
      · simp [hn]
      · simp only [hn, if_false]
        rw [ih f2 (n / 10) (by omega) (by omega)]

/-- Decimal renderings are nonempty. -/
theorem natToDigits_ne_nil (n : Nat) : natToDigits n ≠ [] := by
  rw [natToDigits, natToDigitsAux]
  split <;> simp

/-- Decimal renderings consist of digits. -/
theorem natToDigits_digits (n : Nat) : ∀ c ∈ natToDigits n, isDigitC c = true := by
  suffices h : ∀ fuel n, n < fuel → ∀ c ∈ natToDigitsAux fuel n, isDigitC c = true from
    h (n + 1) n (by omega)
  intro fuel
  induction fuel with
  | zero => intro n h1; omega
  | succ f ih =>
    intro n h1 c hc
    rw [natToDigitsAux] at hc
    by_cases hn : n < 10
    · rw [if_pos hn] at hc
      rcases List.mem_singleton.mp hc with rfl
      simp only [isDigitC, Bool.and_eq_true, decide_eq_true_eq]
      omega
    · rw [if_neg hn] at hc
      rcases List.mem_append.mp hc with h2 | h2
      · exact ih (n / 10) (by omega) c h2
      · rcases List.mem_singleton.mp h2 with rfl
        have : n % 10 < 10 := Nat.mod_lt _ (by omega)
        simp only [isDigitC, Bool.and_eq_true, decide_eq_true_eq]
        omega

/-- Reading back the decimal rendering of a number recovers it. -/
theorem natOfDigits_natToDigits (n : Nat) : natOfDigits (natToDigits n) = n := by
  suffices h : ∀ fuel n, n < fuel → natOfDigits (natToDigitsAux fuel n) = n from
    h (n + 1) n (by omega)
  intro fuel
  induction fuel with
  | zero => intro n h1; omega
  | succ f ih =>
    intro n h1
    rw [natToDigitsAux]
    by_cases hn : n < 10
    · rw [if_pos hn]
      simp [natOfDigits]
    · rw [if_neg hn]
      rw [natOfDigits, List.foldl_append]
      simp only [List.foldl_cons, List.foldl_nil]
      have e : List.foldl (fun acc c => acc * 10 + (c - 48)) 0
          (natToDigitsAux f (n / 10)) = n / 10 := ih (n / 10) (by omega)
      rw [e]
      omega

/-- A fraction-free float token is its integer value. -/
theorem floatOfParts_nil (D : PyStr) : floatOfParts D [] = (natOfDigits D : ℚ) := by
  simp [floatOfParts, natOfDigits]

/-- A digit code point lies between 48 and 57. -/
theorem digit_range (c : Nat) (h : isDigitC c = true) : 48 ≤ c ∧ c ≤ 57 := by
  simpa [isDigitC, Bool.and_eq_true, decide_eq_true_eq] using h

/-- Digits are fixed by the lowercase map. -/
theorem toLowerC_digit (c : Nat) (h : isDigitC c = true) : toLowerC c = c := by
  have := digit_range c h
  simp only [toLowerC, isUpperC, Bool.and_eq_true, decide_eq_true_eq]
  split_ifs <;> omega

/-- The percentage pattern cannot fire inside a digit run whose
continuation starts with a non-digit that is neither a dot nor (after
spaces) a percent sign. -/
theorem pctAt_digits_fail (A : PyStr) (b : Nat) (B2 : PyStr) (hAne : A ≠ [])
    (hA : ∀ c ∈ A, isDigitC c = true) (hbd : isDigitC b = false)
    (hb46 : b ≠ 46) (htail : tailPct (b :: B2) = false) :
    pctAt (A ++ b :: B2) = none := by
  rw [pctAt]
  rw [takeWhile_append_of isDigitC A b _ hA hbd,
      dropWhile_append_of isDigitC A b _ hA hbd]
  have hAe : A.isEmpty = false := by
    cases A with | nil => exact absurd rfl hAne | cons x xs => rfl
  simp only [hAe, Bool.false_eq_true, if_false, hb46, htail]

/-- Searching for the percentage pattern skips over a digit run whose
continuation cannot complete a match. -/
theorem searchPct_skip_digits (A : PyStr) (b : Nat) (B2 : PyStr)
    (hA : ∀ c ∈ A, isDigitC c = true) (hbd : isDigitC b = false)
    (hb46 : b ≠ 46) (htail : tailPct (b :: B2) = false) :
    searchPct (A ++ b :: B2) = searchPct (b :: B2) := by
  induction A with
  | nil => rfl
  | cons a A2 ih =>
    rw [List.cons_append, searchPct]
    have hfail : pctAt (a :: (A2 ++ b :: B2)) = none := by
      rw [show a :: (A2 ++ b :: B2) = (a :: A2) ++ b :: B2 from rfl]
      exact pctAt_digits_fail (a :: A2) b B2 (by simp) hA hbd hb46 htail
    rw [hfail]
    exact ih (fun c hc => hA c (List.mem_cons_of_mem a hc))

/-- Searching for the percentage pattern skips over non-digits. -/
theorem searchPct_skip_nondigits (A B : PyStr)
    (hA : ∀ c ∈ A, isDigitC c = false) : searchPct (A ++ B) = searchPct B := by
  induction A with
  | nil => rfl
  | cons a A2 ih =>
    rw [List.cons_append, searchPct]
    have ha : isDigitC a = false := hA a (List.mem_cons_self _ _)
    have hfail : pctAt (a :: (A2 ++ B)) = none := by
      rw [pctAt, List.takeWhile_cons]
      simp only [ha, Bool.false_eq_true, if_false]
      simp
    rw [hfail]
    exact ih (fun c hc => hA c (List.mem_cons_of_mem a hc))

/-- At a digit run followed directly by a percent sign, the percentage
pattern matches the run. -/
theorem searchPct_digits_pct (DP B2 : PyStr) (hne : DP ≠ [])
    (hdig : ∀ c ∈ DP, isDigitC c = true) :
    searchPct (DP ++ 37 :: B2) = some ((natOfDigits DP : ℚ)) := by
  have h37 : isDigitC 37 = false := by decide
  have hat : pctAt (DP ++ 37 :: B2) = some ((natOfDigits DP : ℚ)) := by
    rw [pctAt]
    rw [takeWhile_append_of isDigitC DP 37 _ hdig h37,
        dropWhile_append_of isDigitC DP 37 _ hdig h37]
    have hDPe : DP.isEmpty = false := by
      cases DP with | nil => exact absurd rfl hne | cons x xs => rfl
    have ht : tailPct (37 :: B2) = true := by
      rw [tailPct, List.dropWhile_cons]
      simp [show isSpaceC 37 = false from rfl]
    simp [hDPe, ht, floatOfParts_nil]
  cases DP with
  | nil => exact absurd rfl hne
  | cons d D2 =>
    rw [List.cons_append, searchPct,
        show d :: (D2 ++ 37 :: B2) = (d :: D2) ++ 37 :: B2 from rfl, hat]

/-- At a digit run followed by a plus sign, the plus-tier pattern matches
with the run as its bound. -/
theorem searchPlus_at_head (DL B : PyStr) (hne : DL ≠ [])
    (hdig : ∀ c ∈ DL, isDigitC c = true) :
    searchPlus (DL ++ 43 :: B) = some (natOfDigits DL) := by
  have h43 : isDigitC 43 = false := by decide
  have hat : plusAt (DL ++ 43 :: B) = some (natOfDigits DL) := by
    rw [plusAt]
    rw [takeWhile_append_of isDigitC DL 43 _ hdig h43,
        dropWhile_append_of isDigitC DL 43 _ hdig h43]
    have hDLe : DL.isEmpty = false := by
      cases DL with | nil => exact absurd rfl hne | cons x xs => rfl
    rw [List.dropWhile_cons]
    simp [hDLe, show isSpaceC 43 = false from rfl]
  cases DL with
  | nil => exact absurd rfl hne
  | cons d D2 =>
    rw [List.cons_append, searchPlus,
        show d :: (D2 ++ 43 :: B) = (d :: D2) ++ 43 :: B from rfl, hat]

/-- At `digits-digits`, the range pattern matches with both bounds. -/
theorem searchRange_at_head (DL DH : PyStr) (b : Nat) (B2 : PyStr)
    (hLne : DL ≠ []) (hLdig : ∀ c ∈ DL, isDigitC c = true) (hHne : DH ≠ [])
    (hHdig : ∀ c ∈ DH, isDigitC c = true) (hbd : isDigitC b = false) :
    searchRange (DL ++ 45 :: (DH ++ b :: B2))
      = some (natOfDigits DL, natOfDigits DH) := by
  have h45 : isDigitC 45 = false := by decide
  have hat : rangeAt (DL ++ 45 :: (DH ++ b :: B2))
      = some (natOfDigits DL, natOfDigits DH) := by
    rw [rangeAt]
    rw [takeWhile_append_of isDigitC DL 45 _ hLdig h45,
        dropWhile_append_of isDigitC DL 45 _ hLdig h45]
    have hDLe : DL.isEmpty = false := by
      cases DL with | nil => exact absurd rfl hLne | cons x xs => rfl
    rw [List.dropWhile_cons]
    have hdw : (DH ++ b :: B2).dropWhile isSpaceC = DH ++ b :: B2 := by
      cases DH with
      | nil => exact absurd rfl hHne
      | cons e E2 =>
        rw [List.cons_append, List.dropWhile_cons]
        simp [isSpaceC_of_digit e (hHdig e (List.mem_cons_self _ _))]
    have htw : (DH ++ b :: B2).takeWhile isDigitC = DH :=
      takeWhile_append_of isDigitC DH b _ hHdig hbd
    have hDHe : DH.isEmpty = false := by
      cases DH with | nil => exact absurd rfl hHne | cons x xs => rfl
    simp [hDLe, show isSpaceC 45 = false from rfl, hdw, htw, hDHe]
  cases DL with
  | nil => exact absurd rfl hLne
  | cons d D2 =>
    rw [List.cons_append, searchRange,
        show d :: (D2 ++ 45 :: (DH ++ b :: B2))
          = (d :: D2) ++ 45 :: (DH ++ b :: B2) from rfl, hat]

/-- Stripping fixes a string with non-space first and last characters. -/
theorem pyStrip_sandwich (c e : Nat) (m : PyStr) (hc : isSpaceC c = false)
    (he : isSpaceC e = false) : pyStrip (c :: (m ++ [e])) = c :: (m ++ [e]) := by
  unfold pyStrip
  rw [List.dropWhile_cons]
  simp only [hc, Bool.false_eq_true, if_false]
  rw [show c :: (m ++ [e]) = (c :: m) ++ [e] from rfl, List.reverse_append]
  simp only [List.reverse_cons, List.reverse_nil, List.nil_append,
    List.singleton_append, List.dropWhile_cons]
  simp only [he, Bool.false_eq_true, if_false]
  simp

/-- A leading space is removed by `strip`. -/
theorem pyStrip_cons_space (l : PyStr) : pyStrip (32 :: l) = pyStrip l := by
  unfold pyStrip
  rw [List.dropWhile_cons]
  simp [show isSpaceC 32 = true from rfl]

/-- Every character of a rendered range tier is a digit or one of the
literal characters of `- sqft: % off`. -/
theorem renderTier_rng_chars (lo hi pct : Nat) :
    ∀ c ∈ renderTier (.rng lo hi pct), isDigitC c = true ∨
      c ∈ ([45, 32, 115, 113, 102, 116, 58, 37, 111] : List Nat) := by
  intro c hc
  by_cases hd : isDigitC c = true
  · exact Or.inl hd
  · right
    rw [renderTier, show codes " sqft: " = [32, 115, 113, 102, 116, 58, 32] from rfl,
        show codes "% off" = [37, 32, 111, 102, 102] from rfl] at hc
    simp only [List.mem_append, List.mem_cons, List.not_mem_nil, or_false] at hc
    have h1 := natToDigits_digits lo c
    have h2 := natToDigits_digits hi c
    have h3 := natToDigits_digits pct c
    simp only [List.mem_cons, List.not_mem_nil, or_false]
    tauto

/-- Every character of a rendered plus tier is a digit or one of the
literal characters of `+ sqft: % off`. -/
theorem renderTier_plus_chars (lo pct : Nat) :
    ∀ c ∈ renderTier (.plus lo pct), isDigitC c = true ∨
      c ∈ ([43, 32, 115, 113, 102, 116, 58, 37, 111] : List Nat) := by
  intro c hc
  by_cases hd : isDigitC c = true
  · exact Or.inl hd
  · right
    rw [renderTier, show codes "+ sqft: " = [43, 32, 115, 113, 102, 116, 58, 32] from rfl,
        show codes "% off" = [37, 32, 111, 102, 102] from rfl] at hc
    simp only [List.mem_append, List.mem_cons, List.not_mem_nil, or_false] at hc
    have h1 := natToDigits_digits lo c
    have h2 := natToDigits_digits pct c
    simp only [List.mem_cons, List.not_mem_nil, or_false]
    tauto

/-- Stripping fixes a string whose first and last characters are
non-space. -/
theorem pyStrip_eq_self_of (l : PyStr) (d : Nat) (rest : PyStr)
    (hl : l = d :: rest) (hd : isSpaceC d = false) (init : PyStr) (e : Nat)
    (hl2 : l = init ++ [e]) (he : isSpaceC e = false) : pyStrip l = l := by
  unfold pyStrip
  have h1 : l.dropWhile isSpaceC = l := by
    rw [hl, List.dropWhile_cons]
    simp [hd]
  rw [h1]
  have h2 : l.reverse = e :: init.reverse := by
    rw [hl2, List.reverse_append]
    simp
  rw [h2, List.dropWhile_cons]
  simp only [he, Bool.false_eq_true, if_false]
  rw [← h2, List.reverse_reverse]

/-- The lowercase map fixes rendered tiers. -/
theorem lowerStr_renderTier (t : Tier) : lowerStr (renderTier t) = renderTier t := by
  have hfix : ∀ c ∈ renderTier t, toLowerC c = c := by
    intro c hc
    cases t with
    | rng lo hi pct =>
      rcases renderTier_rng_chars lo hi pct c hc with hd | hlit
      · exact toLowerC_digit c hd
      · simp only [List.mem_cons, List.not_mem_nil, or_false] at hlit
        rcases hlit with rfl | rfl | rfl | rfl | rfl | rfl | rfl | rfl | rfl <;> rfl
    | plus lo pct =>
      rcases renderTier_plus_chars lo pct c hc with hd | hlit
      · exact toLowerC_digit c hd
      · simp only [List.mem_cons, List.not_mem_nil, or_false] at hlit
        rcases hlit with rfl | rfl | rfl | rfl | rfl | rfl | rfl | rfl | rfl <;> rfl
  unfold lowerStr
  rw [List.map_congr_left hfix]
  exact List.map_id _

/-- Stripping fixes rendered tiers. -/
theorem pyStrip_renderTier (t : Tier) : pyStrip (renderTier t) = renderTier t := by
  cases t with
  | rng lo hi pct =>
    obtain ⟨d, D2, hD⟩ : ∃ d D2, natToDigits lo = d :: D2 := by
      cases hnd : natToDigits lo with
      | nil => exact absurd hnd (natToDigits_ne_nil lo)
      | cons d D2 => exact ⟨d, D2, rfl⟩
    have hd : isSpaceC d = false :=
      isSpaceC_of_digit d (natToDigits_digits lo d (by rw [hD]; simp))
    refine pyStrip_eq_self_of _ d
      (D2 ++ [45] ++ natToDigits hi ++ codes " sqft: " ++ natToDigits pct
        ++ codes "% off") ?_ hd
      (natToDigits lo ++ [45] ++ natToDigits hi ++ codes " sqft: "
        ++ natToDigits pct ++ [37, 32, 111, 102]) 102 ?_ rfl
    · rw [renderTier, hD]
      simp
    · rw [renderTier, show codes "% off" = [37, 32, 111, 102] ++ [102] from rfl]
      simp
  | plus lo pct =>
    obtain ⟨d, D2, hD⟩ : ∃ d D2, natToDigits lo = d :: D2 := by
      cases hnd : natToDigits lo with
      | nil => exact absurd hnd (natToDigits_ne_nil lo)
      | cons d D2 => exact ⟨d, D2, rfl⟩
    have hd : isSpaceC d = false :=
      isSpaceC_of_digit d (natToDigits_digits lo d (by rw [hD]; simp))
    refine pyStrip_eq_self_of _ d
      (D2 ++ codes "+ sqft: " ++ natToDigits pct ++ codes "% off") ?_ hd
      (natToDigits lo ++ codes "+ sqft: " ++ natToDigits pct
        ++ [37, 32, 111, 102]) 102 ?_ rfl
    · rw [renderTier, hD]
      simp
    · rw [renderTier, show codes "% off" = [37, 32, 111, 102] ++ [102] from rfl]
      simp

/-- A rendered range tier contains no plus sign. -/
theorem renderTier_rng_no43 (lo hi pct : Nat) :
    strContains (renderTier (.rng lo hi pct)) 43 = false := by
  rw [strContains]
  rw [List.any_eq_false]
  intro c hc
  rcases renderTier_rng_chars lo hi pct c hc with hd | hlit
  · have := digit_range c hd
    simp only [decide_eq_true_eq]
    omega
  · simp only [List.mem_cons, List.not_mem_nil, or_false] at hlit
    simp only [decide_eq_true_eq]
    omega

/-- A rendered range tier contains a hyphen. -/
theorem renderTier_rng_has45 (lo hi pct : Nat) :
    strContains (renderTier (.rng lo hi pct)) 45 = true := by
  rw [strContains]
  rw [List.any_eq_true]
  refine ⟨45, ?_, by simp⟩
  rw [renderTier]
  simp

/-- A rendered plus tier contains a plus sign. -/
theorem renderTier_plus_has43 (lo pct : Nat) :
    strContains (renderTier (.plus lo pct)) 43 = true := by
  rw [strContains]
  rw [List.any_eq_true]
  refine ⟨43, ?_, by simp⟩
  rw [renderTier, show codes "+ sqft: " = 43 :: codes " sqft: " from rfl]
  simp

/-- Splitting a separator-free string yields that single piece. -/
theorem splitOnChar_no_sep (sep : Nat) (xs : PyStr) (h : ∀ c ∈ xs, c ≠ sep) :
    splitOnChar sep xs = [xs] := by
  induction xs with
  | nil => rfl
  | cons c cs ih =>
    have hc : c ≠ sep := h c (List.mem_cons_self _ _)
    rw [splitOnChar, ih (fun x hx => h x (List.mem_cons_of_mem c hx))]
    simp [hc]

/-- Splitting past a separator-free prefix emits that prefix as the first
piece. -/
theorem splitOnChar_append (sep : Nat) (xs ys : PyStr)
    (h : ∀ c ∈ xs, c ≠ sep) :
    splitOnChar sep (xs ++ sep :: ys) = xs :: splitOnChar sep ys := by
  induction xs with
  | nil => rw [List.nil_append, splitOnChar]; simp
  | cons c cs ih =>
    have hc : c ≠ sep := h c (List.mem_cons_self _ _)
    rw [List.cons_append, splitOnChar,
        ih (fun x hx => h x (List.mem_cons_of_mem c hx))]
    simp [hc]

/-- Rendered tiers are nonempty. -/
theorem renderTier_ne_nil (t : Tier) : renderTier t ≠ [] := by
  cases t <;> (rw [renderTier]; simp [natToDigits_ne_nil])

/-- On the canonical text of one tier, the tier-evaluation step computes
exactly the spec's step: keep the maximum when the tier contains the
quantity. -/
theorem tierStep_render (q best : ℚ) (t : Tier) :
    tierStep q best (renderTier t) = specTierStep q best t := by
  rw [tierStep, pyStrip_renderTier, lowerStr_renderTier]
  have hne : (renderTier t).isEmpty = false := by
    cases he : renderTier t with
    | nil => exact absurd he (renderTier_ne_nil t)
    | cons a l => rfl
  simp only [hne, Bool.false_eq_true, if_false]
  cases t with
  | rng lo hi pct =>
    have hshape : renderTier (.rng lo hi pct)
        = natToDigits lo ++ 45 :: (natToDigits hi
            ++ 32 :: ([115, 113, 102, 116, 58, 32]
              ++ (natToDigits pct ++ 37 :: [32, 111, 102, 102]))) := by
      rw [renderTier,
          show codes " sqft: " = 32 :: [115, 113, 102, 116, 58, 32] from rfl,
          show codes "% off" = 37 :: [32, 111, 102, 102] from rfl]
      simp
    have hpct : searchPct (renderTier (.rng lo hi pct)) = some ((pct : ℚ)) := by
      rw [hshape]
      rw [searchPct_skip_digits (natToDigits lo) 45 _ (natToDigits_digits lo)
        (by decide) (by decide)
        (by rw [tailPct, List.dropWhile_cons]
            simp [show isSpaceC 45 = false from rfl])]
      rw [show (45 :: (natToDigits hi ++ 32 :: ([115, 113, 102, 116, 58, 32]
            ++ (natToDigits pct ++ 37 :: [32, 111, 102, 102]))))
          = [45] ++ (natToDigits hi ++ 32 :: ([115, 113, 102, 116, 58, 32]
            ++ (natToDigits pct ++ 37 :: [32, 111, 102, 102]))) from rfl]
      rw [searchPct_skip_nondigits [45] _ (by decide)]
      rw [searchPct_skip_digits (natToDigits hi) 32 _ (natToDigits_digits hi)
        (by decide) (by decide)
        (by rw [tailPct, List.dropWhile_cons]
            rw [show isSpaceC 32 = true from rfl]
            simp [List.dropWhile_append]
            rw [List.dropWhile_cons]
            simp [show isSpaceC 115 = false from rfl])]
      rw [show (32 :: ([115, 113, 102, 116, 58, 32]
            ++ (natToDigits pct ++ 37 :: [32, 111, 102, 102])))
          = (32 :: [115, 113, 102, 116, 58, 32])
            ++ (natToDigits pct ++ 37 :: [32, 111, 102, 102]) from rfl]
      rw [searchPct_skip_nondigits (32 :: [115, 113, 102, 116, 58, 32]) _
        (by decide)]
      rw [searchPct_digits_pct (natToDigits pct) [32, 111, 102, 102]
        (natToDigits_ne_nil pct) (natToDigits_digits pct)]
      rw [natOfDigits_natToDigits]
    rw [hpct, renderTier_rng_no43 lo hi pct]
    simp only [Bool.false_eq_true, if_false]
    rw [renderTier_rng_has45 lo hi pct]
    simp only [if_true]
    have hrange : searchRange (renderTier (.rng lo hi pct))
        = some (lo, hi) := by
      rw [hshape]
      rw [searchRange_at_head (natToDigits lo) (natToDigits hi) 32 _
        (natToDigits_ne_nil lo) (natToDigits_digits lo)
        (natToDigits_ne_nil hi) (natToDigits_digits hi) (by decide)]
      rw [natOfDigits_natToDigits, natOfDigits_natToDigits]
    rw [hrange]
    rw [specTierStep]
    simp [tierMatches, tierPct]
  | plus lo pct =>
    have hshape : renderTier (.plus lo pct)
        = natToDigits lo ++ 43 :: ([32, 115, 113, 102, 116, 58, 32]
            ++ (natToDigits pct ++ 37 :: [32, 111, 102, 102])) := by
      rw [renderTier,
          show codes "+ sqft: " = 43 :: [32, 115, 113, 102, 116, 58, 32] from rfl,
          show codes "% off" = 37 :: [32, 111, 102, 102] from rfl]
      simp
    have hpct : searchPct (renderTier (.plus lo pct)) = some ((pct : ℚ)) := by
      rw [hshape]
      rw [searchPct_skip_digits (natToDigits lo) 43 _ (natToDigits_digits lo)
        (by decide) (by decide)
        (by rw [tailPct, List.dropWhile_cons]
            simp [show isSpaceC 43 = false from rfl])]
      rw [show (43 :: ([32, 115, 113, 102, 116, 58, 32]
            ++ (natToDigits pct ++ 37 :: [32, 111, 102, 102])))
          = (43 :: [32, 115, 113, 102, 116, 58, 32])
            ++ (natToDigits pct ++ 37 :: [32, 111, 102, 102]) from rfl]
      rw [searchPct_skip_nondigits (43 :: [32, 115, 113, 102, 116, 58, 32]) _
        (by decide)]
      rw [searchPct_digits_pct (natToDigits pct) [32, 111, 102, 102]
        (natToDigits_ne_nil pct) (natToDigits_digits pct)]
      rw [natOfDigits_natToDigits]
    rw [hpct, renderTier_plus_has43 lo pct]
    simp only [if_true]
    have hplus : searchPlus (renderTier (.plus lo pct)) = some lo := by
      rw [hshape]
      rw [searchPlus_at_head (natToDigits lo) _ (natToDigits_ne_nil lo)
        (natToDigits_digits lo)]
      rw [natOfDigits_natToDigits]
    rw [hplus]
    rw [specTierStep]
    simp [tierMatches, tierPct]

/-- Rendered tiers contain no comma. -/
theorem renderTier_no44 (t : Tier) : ∀ c ∈ renderTier t, c ≠ 44 := by
  intro c hc
  cases t with
  | rng lo hi pct =>
    rcases renderTier_rng_chars lo hi pct c hc with hd | hlit
    · have := digit_range c hd
      omega
    · simp only [List.mem_cons, List.not_mem_nil, or_false] at hlit
      omega
  | plus lo pct =>
    rcases renderTier_plus_chars lo pct c hc with hd | hlit
    · have := digit_range c hd
      omega
    · simp only [List.mem_cons, List.not_mem_nil, or_false] at hlit
      omega

/-- `tierStep` ignores an optional leading space before a rendered tier. -/
theorem tierStep_render_pre (q best : ℚ) (t : Tier) (pre : PyStr)
    (hpre : pre = [] ∨ pre = [32]) :
    tierStep q best (pre ++ renderTier t) = specTierStep q best t := by
  rcases hpre with rfl | rfl
  · rw [List.nil_append]
    exact tierStep_render q best t
  · rw [show ([32] ++ renderTier t) = 32 :: renderTier t from rfl]
    rw [tierStep, pyStrip_cons_space, pyStrip_renderTier, lowerStr_renderTier]
    have h := tierStep_render q best t
    rw [tierStep, pyStrip_renderTier, lowerStr_renderTier] at h
    exact h

/-- Folding the tier step over the comma-split canonical text computes the
spec's fold over the tiers. -/
theorem foldl_render (ts : List Tier) (q : ℚ) :
    ∀ (best : ℚ) (pre : PyStr), pre = [] ∨ pre = [32] →
    (splitOnChar 44 (pre ++ renderTiers ts)).foldl (tierStep q) best
      = ts.foldl (specTierStep q) best := by
  induction ts with
  | nil =>
    intro best pre hpre
    rcases hpre with rfl | rfl <;> rfl
  | cons t rest ih =>
    intro best pre hpre
    have hpre44 : ∀ c ∈ pre, c ≠ 44 := by
      rcases hpre with rfl | rfl
      · intro c hc; simp at hc
      · intro c hc
        simp only [List.mem_singleton] at hc
        omega
    have hnosep : ∀ c ∈ pre ++ renderTier t, c ≠ 44 := by
      intro c hc
      rcases List.mem_append.mp hc with h | h
      · exact hpre44 c h
      · exact renderTier_no44 t c h
    cases rest with
    | nil =>
      rw [show renderTiers [t] = renderTier t from rfl]
      rw [splitOnChar_no_sep 44 _ hnosep]
      simp only [List.foldl_cons, List.foldl_nil]
      rw [tierStep_render_pre q best t pre hpre]
    | cons t2 r2 =>
      rw [show renderTiers (t :: t2 :: r2)
            = renderTier t ++ 44 :: (32 :: renderTiers (t2 :: r2)) from rfl]
      rw [← List.append_assoc]
      rw [splitOnChar_append 44 _ _ hnosep]
      simp only [List.foldl_cons]
      rw [tierStep_render_pre q best t pre hpre]
      rw [show (32 :: renderTiers (t2 :: r2))
            = [32] ++ renderTiers (t2 :: r2) from rfl]
      exact ih (specTierStep q best t) [32] (Or.inr rfl)

/-- C4, counterexample: a quantity of `0` is falsy in Python, so the guard
returns `0.0` even though the `0-10` tier contains quantity 0 with a `5%`
discount, contradicting the claim's for-every-quantity reading. -/
theorem C4_counterexample :
    parse_volume_discounts (codes "0-10 sqft: 5% off") 0 = 0 ∧
    tierMatches 0 (.rng 0 10 5) = true ∧
    codes "0-10 sqft: 5% off" = renderTiers [.rng 0 10 5] ∧
    specBestDiscount [.rng 0 10 5] 0 = 5 := by
  refine ⟨rfl, by decide, by decide, ?_⟩
  rw [specBestDiscount]
  simp only [List.foldl_cons, List.foldl_nil, specTierStep]
  rw [if_pos (by decide)]
  norm_num [tierPct]

/-- C4 (amended): for every nonzero quantity, on canonical comma-separated
tier text (`<min>-<max> sqft: <pct>% off` ranges inclusive at both ends,
`<min>+ sqft: <pct>% off` unbounded above, order-independent because the
maximum wins) `parse_volume_discounts` returns the maximum percentage over
the tiers containing the quantity and `0.0` when none matches; empty text
yields `0.0`; a zero quantity always yields `0.0` (the falsy-quantity
guard); overlapping tiers take the maximum, as in the claim's concrete
example; and the function is total, hence never raises. -/
theorem C4_parse_volume_discounts_amended :
    (∀ ts (q : ℚ), q ≠ 0 →
      parse_volume_discounts (renderTiers ts) q = specBestDiscount ts q) ∧
    parse_volume_discounts (codes "0-1000 sqft: 5% off, 500+ sqft: 8% off") 700 = 8 ∧
    (∀ q : ℚ, parse_volume_discounts [] q = 0) ∧
    (∀ t : PyStr, parse_volume_discounts t 0 = 0) := by
  have hmain : ∀ ts (q : ℚ), q ≠ 0 →
      parse_volume_discounts (renderTiers ts) q = specBestDiscount ts q := by
    intro ts q hq
    cases ts with
    | nil => simp [parse_volume_discounts, renderTiers, specBestDiscount]
    | cons t rest =>
      rw [parse_volume_discounts]
      have hne2 : (renderTiers (t :: rest)).isEmpty = false := by
        cases rest with
        | nil =>
          rw [show renderTiers [t] = renderTier t from rfl]
          cases he : renderTier t with
          | nil => exact absurd he (renderTier_ne_nil t)
          | cons a l => rfl
        | cons t2 r2 =>
          rw [show renderTiers (t :: t2 :: r2)
                = renderTier t ++ 44 :: (32 :: renderTiers (t2 :: r2)) from rfl]
          cases he : renderTier t with
          | nil => exact absurd he (renderTier_ne_nil t)
          | cons a l => rfl
      rw [if_neg (by simp [hne2, hq])]
      rw [show renderTiers (t :: rest) = [] ++ renderTiers (t :: rest) from rfl]
      rw [foldl_render (t :: rest) q 0 [] (Or.inl rfl)]
      rfl
  refine ⟨hmain, ?_, ?_, ?_⟩
  · have hc : codes "0-1000 sqft: 5% off, 500+ sqft: 8% off"
        = renderTiers [Tier.rng 0 1000 5, Tier.plus 500 8] := by decide
    rw [hc, hmain [Tier.rng 0 1000 5, Tier.plus 500 8] 700 (by norm_num)]
    rw [specBestDiscount]
    simp only [List.foldl_cons, List.foldl_nil, specTierStep]
    rw [if_pos (by decide), if_pos (by decide)]
    norm_num [tierPct]
  · intro q; rfl
  · intro t
    rw [parse_volume_discounts]
    simp

/-- C4, witness: the amended equivalence at a concrete tier list and
quantity. -/
theorem C4_parse_volume_discounts_witness :
    parse_volume_discounts (renderTiers [Tier.rng 500 999 5, Tier.plus 1000 10]) 1200
      = specBestDiscount [Tier.rng 500 999 5, Tier.plus 1000 10] 1200 :=
  C4_parse_volume_discounts_amended.1 [Tier.rng 500 999 5, Tier.plus 1000 10]
    1200 (by norm_num)

/-! ### C7: the LLM-output validation loop -/

/-- On a product object whose `name` value is the string `rawName`, the
validation loop's keep-or-drop decision agrees with the claim-side
characterization. -/
theorem keepOne_eq_claimKeep (fields : List (PyStr × Gem.JVal)) (rawName : PyStr)
    (hname : (Gem.jget fields (codes "name")).getD (.s []) = .s rawName) :
    Gem.keepOne fields (pyStrip rawName) = Gem.claimKeep (.obj fields) := by
  rw [Gem.claimKeep, hname, Gem.keepOne]
  by_cases h1 : (pyStrip rawName).isEmpty
  · simp [h1]
  · by_cases h2 : (match Gem.jget fields (codes "price_per_sqft") with
                   | some v => Gem.jTruthy v
                   | none => false) = true
    · cases hf : Gem.pyFloat ((Gem.jget fields (codes "price_per_sqft")).getD .null) with
      | none => simp [h1, h2, hf]
      | some p =>
        by_cases h3 : (1 : ℚ)/100 ≤ p ∧ p ≤ 1000
        · simp [h1, h2, hf, h3]
          have h : (100 : ℚ)⁻¹ ≤ p := by
            rw [← one_div]
            exact h3.1
          rw [if_pos h, if_neg (not_lt.mpr h)]
        · simp [h1, h2, hf, h3]
          have h3i : ¬((100 : ℚ)⁻¹ ≤ p ∧ p ≤ 1000) := by
            rw [← one_div]
            exact h3
          rw [if_neg h3i, if_pos (fun hle =>
            by_contra (fun hn => h3i ⟨hle, not_lt.mp hn⟩))]
    · have h2f : (match Gem.jget fields (codes "price_per_sqft") with
                  | some v => Gem.jTruthy v
                  | none => false) = false := by
        simpa using h2
      simp [h1, h2f]

/-- C7 (amended): when the validation loop completes without the
non-string-name crash, it keeps exactly the products characterized by
`claimKeep`: stripped name truthy, price truthy and coercible into
[0.01, 1000.0] (others dropped silently), the width being the raw width's
text with a closing quote appended when nonempty — not the §4.1
first-number normalization — and each optional field included only when
its own coercion succeeds. -/
theorem C7_validation_amended :
    ∀ (ps : List Gem.JItem) (vps : List Gem.VProd),
      Gem.validateProducts ps = .ok vps → vps = ps.filterMap Gem.claimKeep := by
  intro ps
  induction ps with
  | nil =>
    intro vps h
    rw [Gem.validateProducts] at h
    injection h with h
    rw [← h]
    rfl
  | cons p rest ih =>
    cases p with
    | nonDict =>
      intro vps h
      rw [Gem.validateProducts] at h
      rw [List.filterMap_cons]
      simp only [Gem.claimKeep]
      exact ih vps h
    | obj fields =>
      intro vps h
      rw [Gem.validateProducts] at h
      cases hname : (Gem.jget fields (codes "name")).getD (.s []) with
      | s rawName =>
        rw [hname] at h
        cases hrest : Gem.validateProducts rest with
        | error e =>
          rw [hrest] at h
          exact absurd h (by simp [Bind.bind, Except.bind])
        | ok tail =>
          rw [hrest] at h
          have h2 : (Except.ok
              ((match Gem.keepOne fields (pyStrip rawName) with
                | some v => [v] | none => []) ++ tail) : Except Unit _)
              = .ok vps := h
          injection h2 with h2
          rw [List.filterMap_cons, ← keepOne_eq_claimKeep fields rawName hname]
          rw [← ih tail hrest]
          rw [← h2]
          cases Gem.keepOne fields (pyStrip rawName) <;> rfl
      | f v => rw [hname] at h; exact absurd h (by simp)
      | i v => rw [hname] at h; exact absurd h (by simp)
      | b v => rw [hname] at h; exact absurd h (by simp)
      | null => rw [hname] at h; exact absurd h (by simp)
      | coll t r => rw [hname] at h; exact absurd h (by simp)

unseal Rat.mul Rat.inv Rat.add Rat.sub in
/-- C7, counterexample: the validator keeps a width `7 inch` as the text
`7 inch"` (strip and append a quote), not the §4.1 normalization `7"`;
and a whitespace-only name — truthy in Python — is dropped because the
loop strips it before testing. -/
theorem C7_counterexample :
    Gem.validateProducts
      [.obj [(codes "name", .s (codes "Red Oak")),
             (codes "price_per_sqft", .f 4),
             (codes "width", .s (codes "7 inch"))]]
      = .ok [⟨codes "Red Oak", 4, some (codes "7 inch\""),
             none, none, none, none⟩] ∧
    EH._normalize_width (codes "7 inch") = some (codes "7\"") ∧
    codes "7 inch\"" ≠ codes "7\"" ∧
    Gem.validateProducts
      [.obj [(codes "name", .s (codes "   ")),
             (codes "price_per_sqft", .f 4)]] = .ok [] := by
  refine ⟨by rfl, by decide, by decide, by rfl⟩

unseal Rat.mul Rat.inv Rat.add Rat.sub in
/-- C7, witness: the amended characterization at a concrete product list. -/
theorem C7_validation_witness :
    Gem.validateProducts
      [.obj [(codes "name", .s (codes "Red Oak")),
             (codes "price_per_sqft", .f 4),
             (codes "width", .s (codes "7 inch"))]]
      = .ok ([Gem.JItem.obj [(codes "name", .s (codes "Red Oak")),
              (codes "price_per_sqft", .f 4),
              (codes "width", .s (codes "7 inch"))]].filterMap Gem.claimKeep) := by
  have h : Gem.validateProducts
      [.obj [(codes "name", .s (codes "Red Oak")),
             (codes "price_per_sqft", .f 4),
             (codes "width", .s (codes "7 inch"))]]
      = .ok [⟨codes "Red Oak", 4, some (codes "7 inch\""),
             none, none, none, none⟩] := by rfl
  rw [h]
  exact congrArg Except.ok (C7_validation_amended _ _ h)

/-! ### C2: verify-after-write and the archive condition -/

/-- The verify-after-write re-read succeeds exactly when some stored row
matches the written key within the price tolerance. -/
theorem verify_database_update_iff (db : DB.Db) (nm : PyStr) (pr : ℚ)
    (w : Option PyStr) :
    EH.verify_database_update db nm pr w = true ↔ verifiedInDb db nm w pr := by
  simp [EH.verify_database_update, DB.get_products, verifiedInDb,
    List.any_eq_true, Option.isNone_iff_eq_none, and_assoc]

/-- A product emerging from the per-product loop has passed the catalog
write and the re-read check of its own step. -/
theorem processProduct_applied (db : DB.Db) (now : Nat) (p : EH.RProd)
    (db2 : DB.Db) (a : EH.Applied)
    (h : EH.processProduct db now p = (db2, some a)) :
    ∃ nm w mq,
      (DB.update_product_price db nm a.price w a.discount mq a.promotion
        a.volume_discounts none now).1 = true ∧
      verifiedInDb (DB.update_product_price db nm a.price w a.discount mq
        a.promotion a.volume_discounts none now).2 nm w a.price := by
  obtain ⟨pn, pw, pp, pd, pm, ppr, pv⟩ := p
  cases pn with
  | none => cases pp <;> simp [EH.processProduct] at h
  | some nm =>
    cases pp with
    | none => simp [EH.processProduct] at h
    | some pr =>
      simp only [EH.processProduct] at h
      split at h
      · simp at h
      · split at h
        · simp at h
        · split at h
          · split at h
            · rename_i hsucc hver
              rw [Prod.mk.injEq] at h
              obtain ⟨hdb, ha⟩ := h
              injection ha with ha
              subst ha
              exact ⟨_, _, pm, hsucc,
                (verify_database_update_iff _ _ _ _).mp hver⟩
            · simp at h
          · simp at h

/-- Every entry of the collected applied list of the product loop has
passed the write and re-read checks against the catalog state of its own
step. -/
theorem processProducts_applied (now : Nat) :
    ∀ (ps : List EH.RProd) (db : DB.Db) (a : EH.Applied),
      a ∈ (EH.processProducts db now ps).2 →
      ∃ db1 nm w mq,
        (DB.update_product_price db1 nm a.price w a.discount mq a.promotion
          a.volume_discounts none now).1 = true ∧
        verifiedInDb (DB.update_product_price db1 nm a.price w a.discount mq
          a.promotion a.volume_discounts none now).2 nm w a.price := by
  intro ps
  induction ps with
  | nil =>
    intro db a ha
    simp [EH.processProducts] at ha
  | cons p rest ih =>
    intro db a ha
    have hsnd : (EH.processProducts db now (p :: rest)).2 =
        (match (EH.processProduct db now p).2 with
         | some x => [x] | none => []) ++
        (EH.processProducts (EH.processProduct db now p).1 now rest).2 := by
      rw [EH.processProducts]
    rw [hsnd] at ha
    rcases List.mem_append.mp ha with h1 | h2
    · cases hp2 : (EH.processProduct db now p).2 with
      | none => rw [hp2] at h1; simp at h1
      | some x =>
        rw [hp2] at h1
        simp only [List.mem_singleton] at h1
        subst h1
        have hp : EH.processProduct db now p
            = ((EH.processProduct db now p).1, some a) := by
          rw [← hp2]
        exact ⟨db, processProduct_applied db now p _ a hp⟩
    · exact ih (EH.processProduct db now p).1 a h2

/-- The per-message loop yields either no result and no read or archive
effect, or a result carrying the nonempty applied list together with all
three mailbox effects. -/
theorem processMessage_shape (extract : PyStr → Option (List EH.RProd))
    (own : Option PyStr) (db : DB.Db) (threads : List PyStr) (now : Nat)
    (m : EH.Msg) :
    ((EH.processMessage extract own db threads now m).2.1 = none ∧
     EH.Ev.markedRead ∉ (EH.processMessage extract own db threads now m).2.2 ∧
     EH.Ev.archived ∉ (EH.processMessage extract own db threads now m).2.2) ∨
    (∃ products,
      extract m.body = some products ∧
      (EH.processMessage extract own db threads now m).2.1 =
        some ⟨m.sender, (EH.processProducts db now products).2,
              codes "processed",
              codes "Updated "
                ++ natToDigits (EH.processProducts db now products).2.length
                ++ codes " product(s)"⟩ ∧
      (EH.processProducts db now products).2 ≠ [] ∧
      (EH.processMessage extract own db threads now m).2.2
        = [.extracted, .markedRead, .archived]) := by
  simp only [EH.processMessage]
  split
  · left
    exact ⟨rfl, by simp, by simp⟩
  · cases hx : extract m.body with
    | none =>
      left
      exact ⟨rfl, by simp, by simp⟩
    | some products =>
      dsimp only
      split
      · left
        exact ⟨rfl, by simp, by simp⟩
      · cases hpp : EH.processProducts db now products with
        | mk db2 applied =>
          dsimp only
          split
          · left
            exact ⟨rfl, by simp, by simp⟩
          · rename_i hne
            right
            refine ⟨products, rfl, ?_, ?_, rfl⟩
            · rw [hpp]
            · rw [hpp]
              exact fun hnil => hne (by rw [show applied = [] from hnil]; rfl)

/-- C2: a product enters a message's `SupplierReplyResult` only after its
catalog write returned `True` and the re-read found a row of the written
name and width within `0.01` of the applied price; and the message is
marked read and archived exactly when such a result was emitted, which
carries at least one verified product. -/
theorem C2_reply_verification (extract : PyStr → Option (List EH.RProd))
    (own : Option PyStr) (db : DB.Db) (threads : List PyStr) (now : Nat)
    (m : EH.Msg) :
    (∀ r, (EH.processMessage extract own db threads now m).2.1 = some r →
      r.products ≠ [] ∧
      ∀ a ∈ r.products,
        ∃ db1 nm w mq,
          (DB.update_product_price db1 nm a.price w a.discount mq a.promotion
            a.volume_discounts none now).1 = true ∧
          verifiedInDb (DB.update_product_price db1 nm a.price w a.discount mq
            a.promotion a.volume_discounts none now).2 nm w a.price) ∧
    (EH.Ev.markedRead ∈ (EH.processMessage extract own db threads now m).2.2 ↔
      (EH.processMessage extract own db threads now m).2.1 ≠ none) ∧
    (EH.Ev.archived ∈ (EH.processMessage extract own db threads now m).2.2 ↔
      (EH.processMessage extract own db threads now m).2.1 ≠ none) := by
  rcases processMessage_shape extract own db threads now m with
    ⟨hres, hmr, har⟩ | ⟨products, hx, hres, hne, hevs⟩
  · refine ⟨?_, iff_of_false hmr (by simp [hres]),
      iff_of_false har (by simp [hres])⟩
    intro r hr
    rw [hres] at hr
    exact absurd hr (by simp)
  · refine ⟨?_, ?_, ?_⟩
    · intro r hr
      rw [hres] at hr
      injection hr with hr
      subst hr
      exact ⟨hne, fun a ha => processProducts_applied now products db a ha⟩
    · rw [hevs, hres]
      simp
    · rw [hevs, hres]
      simp

unseal Rat.mul Rat.inv Rat.add Rat.sub in
/-- C2, witness: a concrete reply whose one product is written and then
found again by the re-read. -/
theorem C2_reply_verification_witness :
    ∃ db1 nm w mq,
      (DB.update_product_price db1 nm (4 : ℚ) w none mq none none none 0).1
        = true ∧
      verifiedInDb
        (DB.update_product_price db1 nm (4 : ℚ) w none mq none none none 0).2
        nm w (4 : ℚ) := by
  have h := (C2_reply_verification sampleExtract none [sampleRow] [] 0
      sampleMsg).1
    ⟨codes "supplier@mill.com",
     [⟨codes "Red Oak (7\")", (4 : ℚ), none, none, none⟩],
     codes "processed", codes "Updated 1 product(s)"⟩
    (by decide)
  exact h.2 ⟨codes "Red Oak (7\")", (4 : ℚ), none, none, none⟩
    (List.mem_singleton.mpr rfl)

/-! ### C8: the self-sender filter -/

/-- A message from the account's own (nonempty) address, compared
case-insensitively, is dropped before any extraction or catalog work: the
per-message loop returns the state unchanged with no result and no mailbox
effect. -/
theorem processMessage_self (extract : PyStr → Option (List EH.RProd))
    (e : PyStr) (he : e ≠ []) (db : DB.Db) (threads : List PyStr) (now : Nat)
    (m : EH.Msg) (hs : lowerStr m.sender = lowerStr e) :
    EH.processMessage extract (some e) db threads now m
      = ((db, threads), none, []) := by
  have hc : (!e.isEmpty && decide (lowerStr m.sender = lowerStr e)) = true := by
    simp [hs, List.isEmpty_iff, he]
  simp only [EH.processMessage]
  rw [if_pos hc]

/-- An emitted result names the sender of the message that produced it. -/
theorem processMessage_supplier (extract : PyStr → Option (List EH.RProd))
    (own : Option PyStr) (db : DB.Db) (threads : List PyStr) (now : Nat)
    (m : EH.Msg) (r : EH.SupplierResult)
    (h : (EH.processMessage extract own db threads now m).2.1 = some r) :
    r.supplier = m.sender := by
  rcases processMessage_shape extract own db threads now m with
    ⟨hn, _, _⟩ | ⟨ps, _, hres, _, _⟩
  · rw [hn] at h
    exact absurd h (by simp)
  · rw [hres] at h
    injection h with h
    rw [← h]

/-- Invariant of the run fold: provided every listed index tags its own
message, every event index of the run belongs to a message whose sender
differs case-insensitively from the account's own address, and every
emitted result names such a sender. -/
theorem runFold_self_inv (extract : PyStr → Option (List EH.RProd))
    (e : PyStr) (he : e ≠ []) (now : Nat) (msgs : List EH.Msg) :
    ∀ (pairs : List (Nat × EH.Msg)) (st : EH.RunOut),
      (∀ q ∈ pairs, msgs.get? q.1 = some q.2) →
      (∀ i ev, (i, ev) ∈ st.events →
        ∃ m, msgs.get? i = some m ∧ lowerStr m.sender ≠ lowerStr e) →
      (∀ r ∈ st.results, lowerStr r.supplier ≠ lowerStr e) →
      (∀ i ev,
        (i, ev) ∈ (pairs.foldl (EH.runStep extract (some e) now) st).events →
        ∃ m, msgs.get? i = some m ∧ lowerStr m.sender ≠ lowerStr e) ∧
      (∀ r ∈ (pairs.foldl (EH.runStep extract (some e) now) st).results,
        lowerStr r.supplier ≠ lowerStr e) := by
  intro pairs
  induction pairs with
  | nil =>
    intro st hq hev hres
    exact ⟨hev, hres⟩
  | cons q rest ih =>
    intro st hq hev hres
    rw [List.foldl_cons]
    apply ih
    · intro q' hq'
      exact hq q' (List.mem_cons_of_mem q hq')
    · intro i ev hiv
      simp only [EH.runStep] at hiv
      rcases List.mem_append.mp hiv with h | h
      · exact hev i ev h
      · rcases List.mem_map.mp h with ⟨ev0, hev0, heq⟩
        injection heq with h1 h2
        subst h1
        refine ⟨q.2, hq q (List.mem_cons_self _ _), ?_⟩
        intro hself
        rw [processMessage_self extract e he st.db st.threads now q.2 hself]
          at hev0
        exact absurd hev0 (by simp)
    · intro r hr
      simp only [EH.runStep] at hr
      rcases List.mem_append.mp hr with h | h
      · exact hres r h
      · by_cases hself : lowerStr q.2.sender = lowerStr e
        · rw [processMessage_self extract e he st.db st.threads now q.2 hself]
            at h
          exact absurd h (by simp)
        · cases ho : (EH.processMessage extract (some e) st.db st.threads now
              q.2).2.1 with
          | none =>
            rw [ho] at h
            exact absurd h (by simp)
          | some r0 =>
            rw [ho] at h
            simp only [List.mem_singleton] at h
            subst h
            rw [processMessage_supplier extract (some e) st.db st.threads now
              q.2 r ho]
            exact hself

/-- C8: with the account's own address available and nonempty, a fetched
message from that address (case-insensitively) is a complete no-op of the
per-message loop, every mailbox effect of the run belongs to a message
from a different sender, and every emitted result names a different
sender. -/
theorem C8_self_sender_filter (inbox : PyStr → List EH.Msg)
    (extract : PyStr → Option (List EH.RProd)) (e : PyStr)
    (db : DB.Db) (threads : List PyStr) (now : Nat) (he : e ≠ []) :
    (∀ m : EH.Msg, lowerStr m.sender = lowerStr e →
      ∀ db0 threads0,
        EH.processMessage extract (some e) db0 threads0 now m
          = ((db0, threads0), none, [])) ∧
    (∀ i ev,
      (i, ev) ∈ (EH.check_replies_and_save inbox extract (some e) db threads
        now).events →
      ∃ m, (EH.firstNonemptyQuery inbox EH.queriesToTry).get? i = some m ∧
        lowerStr m.sender ≠ lowerStr e) ∧
    (∀ r ∈ (EH.check_replies_and_save inbox extract (some e) db threads
        now).results,
      lowerStr r.supplier ≠ lowerStr e) := by
  have hrun := runFold_self_inv extract e he now
    (EH.firstNonemptyQuery inbox EH.queriesToTry)
    (EH.firstNonemptyQuery inbox EH.queriesToTry).enum
    ⟨[], db, threads, []⟩
    (fun q hq => (List.get?_eq_getElem? _ _).trans
      (List.mem_enum_iff_getElem?.mp hq))
    (by simp)
    (by simp)
  refine ⟨?_, ?_, ?_⟩
  · intro m hs db0 threads0
    exact processMessage_self extract e he db0 threads0 now m hs
  · intro i ev hiv
    simp only [EH.check_replies_and_save] at hiv
    exact hrun.1 i ev hiv
  · intro r hr
    simp only [EH.check_replies_and_save] at hr
    exact hrun.2 r hr

/-- C8, witness: a concrete loopback message from the own address is
dropped without touching anything. -/
theorem C8_self_sender_filter_witness :
    EH.processMessage (fun _ => none) (some (codes "Me@Mill.com")) [] [] 0
      ⟨codes "m1", codes "t1", codes "me@MILL.COM", codes "s", codes "b"⟩
      = (([], []), none, []) :=
  (C8_self_sender_filter (fun _ => []) (fun _ => none) (codes "Me@Mill.com")
    [] [] 0 (by decide)).1
    ⟨codes "m1", codes "t1", codes "me@MILL.COM", codes "s", codes "b"⟩
    (by decide) [] []

/-! ### C6: the regex fallback parser -/

/-- One step of the fallback collection loop preserves pairwise
distinctness of the `(name, width, price)` keys: a candidate is appended
only under the failed duplicate scan. -/
theorem buildStep_pairwise (clean : PyStr) (dp : Option ℚ) (mq : Option Int)
    (promo : Option EH.PromoInfo) (vols : Option (List (PyStr × ℚ)))
    (ng : Nat) (products : List EH.XProd) (m : RMatch)
    (h : products.Pairwise (fun p q => ¬ sameKey p q)) :
    (EH.buildStep clean dp mq promo vols ng products m).Pairwise
      (fun p q => ¬ sameKey p q) := by
  simp only [EH.buildStep]
  split
  · exact h
  · split
    · split
      · exact h
      · split
        · split
          · split
            · exact h
            · rename_i hany
              rw [List.pairwise_append]
              refine ⟨h, by simp, ?_⟩
              intro p hp q hq
              simp only [List.mem_singleton] at hq
              subst hq
              intro hkey
              apply hany
              rw [List.any_eq_true]
              refine ⟨p, hp, ?_⟩
              simp only [sameKey] at hkey
              obtain ⟨h1, h2, h3⟩ := hkey
              simp [h1, h2, h3]
          · exact h
        · exact h
    · exact h

/-- The inner match fold preserves key distinctness. -/
theorem buildFold_pairwise (clean : PyStr) (dp : Option ℚ) (mq : Option Int)
    (promo : Option EH.PromoInfo) (vols : Option (List (PyStr × ℚ)))
    (ng : Nat) :
    ∀ (ms : List RMatch) (products : List EH.XProd),
      products.Pairwise (fun p q => ¬ sameKey p q) →
      (ms.foldl (EH.buildStep clean dp mq promo vols ng) products).Pairwise
        (fun p q => ¬ sameKey p q) := by
  intro ms
  induction ms with
  | nil => intro products h; exact h
  | cons m rest ih =>
    intro products h
    rw [List.foldl_cons]
    exact ih _ (buildStep_pairwise clean dp mq promo vols ng products m h)

/-- The pattern fold preserves key distinctness. -/
theorem buildPatterns_pairwise (clean : PyStr) (dp : Option ℚ)
    (mq : Option Int) (promo : Option EH.PromoInfo)
    (vols : Option (List (PyStr × ℚ))) :
    ∀ (pats : List (RE × Nat)) (products : List EH.XProd),
      products.Pairwise (fun p q => ¬ sameKey p q) →
      (pats.foldl (fun products pg =>
          (reFinditer clean pg.1).foldl
            (EH.buildStep clean dp mq promo vols pg.2) products)
        products).Pairwise (fun p q => ¬ sameKey p q) := by
  intro pats
  induction pats with
  | nil => intro products h; exact h
  | cons pg rest ih =>
    intro products h
    rw [List.foldl_cons]
    exact ih _ (buildFold_pairwise clean dp mq promo vols pg.2 _ products h)

unseal Rat.mul Rat.inv Rat.add Rat.sub in
/-- C6: on the given body the fallback extracts exactly the one claimed
Red Oak product; a body matched by two different patterns contributes the
matches of both; and the collected product list never carries two entries
with the same `(name, width, price)` key. -/
theorem C6_fallback_parse :
    (EH._fallback_email_parse (codes
        "Red Oak 5\" now costs $3.95 with a discount of 12% for orders above 550 sqft")
      = some ⟨[⟨codes "Red Oak", 79/20, some (codes "5\""), some 12, some 550,
               none, none⟩],
              codes "Parsed using regex fallback"⟩) ∧
    (EH._fallback_email_parse (codes "Red Oak 5\" costs $3.95. Maple: $4.50/sqft")
      = some ⟨[⟨codes "Red Oak", 79/20, some (codes "5\""), none, none, none,
               none⟩,
               ⟨codes "Maple", 9/2, none, none, none, none, none⟩],
              codes "Parsed using regex fallback"⟩) ∧
    (∀ clean dp mq promo vols,
      (EH.buildProducts clean dp mq promo vols).Pairwise
        (fun p q => ¬ sameKey p q)) := by
  refine ⟨by decide, by decide, ?_⟩
  intro clean dp mq promo vols
  exact buildPatterns_pairwise clean dp mq promo vols EH.fallbackPatterns []
    List.Pairwise.nil
